import Mathlib

/-!
Shallow embedding of the schema-generation engine of `metadata-mgmt`
(`src/schema_generation/...`): the value classifier `infer_types`
(`common/data_infer.py`), the tabular generator (`csv/csv_schema_generator.py`),
the line-delimited-JSON generator and property merger
(`jsonl/jsonl_schema_generator.py`) and the routing entry point
(`schema_generator.py`), together with theorems settling the frozen claims.

Modelling conventions:
* Python strings are Lean `String`s; character-level work happens on `List Char`.
  Whitespace is modelled as the six ASCII whitespace characters that Python's
  `str.strip` / `\s` treat as spaces (Unicode-only spaces are out of scope).
* Python `float` is modelled as an exact rational: IEEE-754 rounding is ignored,
  which can only matter for range comparisons within one ulp of the Unix
  timestamp bound — no claim exercises that boundary.
* Python `set`s of strings are modelled as duplicate-free lists in first-insertion
  order.  Python's set iteration order is hash-based and unspecified; no theorem
  below depends on the order of a list derived from a set with more than one
  element.
* File/row iteration is the external collaborator described by the spec: a CSV
  source is a header list plus rows of cell texts aligned positionally, a JSONL
  source is a list of `Option JValue` (`none` = blank or undecodable line).
-/

namespace MetadataMgmt

/-- The six ASCII whitespace characters recognised by Python's `str.strip()`
and by `\s` in the regexes of `data_infer.py`. -/
def isPySpace (c : Char) : Bool :=
  c = ' ' || c = '\t' || c = '\n' || c = '\r' || c = '\x0b' || c = '\x0c'

/-- Python `str.strip()` on a character list: drop leading and trailing whitespace. -/
def pyStripList (l : List Char) : List Char :=
  ((l.dropWhile isPySpace).reverse.dropWhile isPySpace).reverse

/-- Python `str.strip()` (data_infer.py line 19). -/
def pyStrip (s : String) : String :=
  ⟨pyStripList s.toList⟩

/-- Python `str.lower()` (ASCII). -/
def pyLower (s : String) : String :=
  ⟨s.toList.map Char.toLower⟩

theorem dropWhile_head_false {p : Char → Bool} {l : List Char} {c : Char}
    {t : List Char} (h : l.dropWhile p = c :: t) : p c = false := by
  induction l with
  | nil => simp [List.dropWhile] at h
  | cons a as ih =>
    by_cases hp : p a
    · exact ih (by simpa [List.dropWhile, hp] using h)
    · rw [List.dropWhile_cons_of_neg hp] at h
      cases h
      simpa using hp

theorem dropWhile_append_last {p : Char → Bool} {c : Char}
    (hc : p c = false) (xs : List Char) :
    (xs ++ [c]).dropWhile p = xs.dropWhile p ++ [c] := by
  induction xs with
  | nil => simp [List.dropWhile, hc]
  | cons a as ih =>
    by_cases hp : p a
    · simpa [List.dropWhile_cons_of_pos hp] using ih
    · simp [List.dropWhile_cons_of_neg hp]

/-- Dropping trailing whitespace of an already leading-stripped list leaves its
leading character intact. -/
theorem dropWhile_pyStrip_aux {p : Char → Bool} (l : List Char) :
    (((l.dropWhile p).reverse.dropWhile p).reverse).dropWhile p
      = ((l.dropWhile p).reverse.dropWhile p).reverse := by
  rcases hA : l.dropWhile p with _ | ⟨c, t⟩
  · simp
  · have hc : p c = false := dropWhile_head_false hA
    have h1 : (c :: t).reverse.dropWhile p = t.reverse.dropWhile p ++ [c] := by
      simpa using dropWhile_append_last hc t.reverse
    rw [h1]
    simp [List.dropWhile_cons, hc]

/-- Stripping is idempotent. -/
theorem pyStripList_idem (l : List Char) :
    pyStripList (pyStripList l) = pyStripList l := by
  unfold pyStripList
  rw [dropWhile_pyStrip_aux l, List.reverse_reverse,
    List.dropWhile_idempotent]

theorem pyStrip_idem (s : String) : pyStrip (pyStrip s) = pyStrip s := by
  unfold pyStrip
  simp [pyStripList_idem]

/-! ### Numeric literal parsers (`int(...)`, `float(...)`, `Decimal(...)`) -/

def isDigitC (c : Char) : Bool := '0' ≤ c && c ≤ '9'

def digitVal (c : Char) : Nat := c.toNat - '0'.toNat

/-- Parse a run of ASCII digits possibly separated by single underscores
(PEP 515: every underscore must sit between two digits).  Returns the digits
(with underscores removed) and the unconsumed rest; `none` if the input does
not start with a digit. -/
def digitRunU : List Char → Option (List Char × List Char)
  | [] => none
  | c :: rest =>
    if isDigitC c then
      match digitRunUAux rest with
      | (ds, rem) => some (c :: ds, rem)
    else none
where
  digitRunUAux : List Char → List Char × List Char
    | [] => ([], [])
    | c :: rest =>
      if isDigitC c then
        match digitRunUAux rest with
        | (ds, rem) => (c :: ds, rem)
      else if c = '_' then
        match rest with
        | d :: rest' =>
          if isDigitC d then
            match digitRunUAux rest' with
            | (ds, rem) => (d :: ds, rem)
          else ([], c :: rest)
        | [] => ([], [c])
      else ([], c :: rest)

/-- Numeric value of a digit list (most significant first). -/
def digitsToNat (ds : List Char) : Nat :=
  ds.foldl (fun acc c => 10 * acc + digitVal c) 0

/-- Python `int(value)` succeeds: optional sign followed by an underscore-separated
digit run consuming the whole (already stripped) string. -/
def pyIntOk (l : List Char) : Bool :=
  let body := match l with
    | '+' :: rest => rest
    | '-' :: rest => rest
    | _ => l
  match digitRunU body with
  | some (_, []) => true
  | _ => false

/-- An exact decimal number `num / 10 ^ pow10`.  The value of a parsed float
literal is represented exactly (IEEE-754 rounding ignored, see the header). -/
structure DecFloat : Type where
  num : Int
  pow10 : Nat
deriving DecidableEq

/-- Range check `0 ≤ v ≤ bound` for an exact decimal, by cross-multiplication. -/
def DecFloat.inRange0 (v : DecFloat) (bound : Nat) : Bool :=
  0 ≤ v.num && v.num ≤ (bound : Int) * (10 : Int) ^ v.pow10

/-- Result of a successful `float(...)` parse. -/
inductive FloatV : Type where
  | fin (v : DecFloat) : FloatV
  | inf (neg : Bool) : FloatV
  | nan : FloatV
deriving DecidableEq

/-- Parse the body of a float literal after the optional sign:
`digits [. digits]` or `. digits`, then optional exponent.  Returns the
exact decimal magnitude. -/
def pyFloatBody (l : List Char) : Option DecFloat :=
  -- integer part (optional), fractional part
  let step1 : Option (DecFloat × List Char) :=
    match digitRunU l with
    | some (ds, rest) =>
      match rest with
      | '.' :: rest' =>
        match digitRunU rest' with
        | some (fs, rest'') =>
          some (⟨(digitsToNat ds * 10 ^ fs.length + digitsToNat fs : Nat), fs.length⟩, rest'')
        | none => some (⟨(digitsToNat ds : Nat), 0⟩, rest')
      | _ => some (⟨(digitsToNat ds : Nat), 0⟩, rest)
    | none =>
      match l with
      | '.' :: rest' =>
        match digitRunU rest' with
        | some (fs, rest'') => some (⟨(digitsToNat fs : Nat), fs.length⟩, rest'')
        | none => none
      | _ => none
  match step1 with
  | none => none
  | some (mant, rest) =>
    match rest with
    | [] => some mant
    | e :: rest' =>
      if e = 'e' || e = 'E' then
        let (esign, ebody) : Bool × List Char :=
          match rest' with
          | '+' :: r => (false, r)
          | '-' :: r => (true, r)
          | _ => (false, rest')
        match digitRunU ebody with
        | some (es, []) =>
          let ex := digitsToNat es
          some (if esign then ⟨mant.num, mant.pow10 + ex⟩
                else ⟨mant.num * (10 : Int) ^ ex, mant.pow10⟩)
        | _ => none
      else none

/-- Python `float(value)` (CPython `float_from_string`): optional sign, then an
`inf`/`infinity`/`nan` keyword (case-insensitive) or a decimal literal with
optional exponent, consuming the whole (stripped) string. -/
def pyFloat (l : List Char) : Option FloatV :=
  let (neg, body) : Bool × List Char :=
    match l with
    | '+' :: rest => (false, rest)
    | '-' :: rest => (true, rest)
    | _ => (false, l)
  let low := body.map Char.toLower
  if low = "inf".toList || low = "infinity".toList then some (.inf neg)
  else if low = "nan".toList then some .nan
  else
    match pyFloatBody body with
    | some v => some (.fin (if neg then ⟨-v.num, v.pow10⟩ else v))
    | none => none

/-- Python `Decimal(value)` succeeds.  CPython's `Decimal` constructor removes every
underscore before parsing (so even `"_-1"` is accepted); the remainder must
match `sign? (digits* [. digits*] [E sign? digits] | Inf | Infinity |
sNaN digits* | NaN digits*)`, case-insensitive, with at least one digit in a
numeric form. -/
def pyDecimalOk (l₀ : List Char) : Bool :=
  let l := l₀.filter (fun c => c ≠ '_')
  let body : List Char :=
    match l with
    | '+' :: rest => rest
    | '-' :: rest => rest
    | _ => l
  let low := body.map Char.toLower
  if low = "inf".toList || low = "infinity".toList then true
  else
    let nanBody : List Char :=
      match low with
      | 's' :: r => r
      | _ => low
    match nanBody with
    | 'n' :: 'a' :: 'n' :: ds => ds.all isDigitC
    | _ =>
      -- numeric: digits* [. digits*] [E sign? digits], ≥ 1 digit in mantissa
      let ipart := low.takeWhile isDigitC
      let rest1 := low.dropWhile isDigitC
      let (fpart, rest2) : List Char × List Char :=
        match rest1 with
        | '.' :: r => (r.takeWhile isDigitC, r.dropWhile isDigitC)
        | _ => ([], rest1)
      if ipart.length + fpart.length = 0 then false
      else
        match rest2 with
        | [] => true
        | 'e' :: r =>
          let er := match r with
            | '+' :: r' => r'
            | '-' :: r' => r'
            | _ => r
          decide (er ≠ []) && er.all isDigitC
        | _ => false

/-! ### The ordered pattern checks of `infer_types` (data_infer.py lines 22-101,
170-192).  Every Python regex is `re.match` against a `^...$`-anchored pattern
on the already-stripped value, i.e. a full match; each check below is the
direct decidable transcription of one pattern. -/

def isHexC (c : Char) : Bool :=
  isDigitC c || ('a' ≤ c && c ≤ 'f') || ('A' ≤ c && c ≤ 'F')

def isAlphaC (c : Char) : Bool :=
  ('a' ≤ c && c ≤ 'z') || ('A' ≤ c && c ≤ 'Z')

/-- Split a character list on a separator character (like `str.split(sep)`). -/
def splitOnC (sep : Char) (l : List Char) : List (List Char) :=
  match l with
  | [] => [[]]
  | c :: rest =>
    match splitOnC sep rest with
    | [] => if c = sep then [[], []] else [[c]]
    | part :: parts => if c = sep then [] :: part :: parts else (c :: part) :: parts

/-- Line 23: membership in the boolean literal set, after `.lower()`. -/
def isBoolLit (v : List Char) : Bool :=
  ["true", "false", "1", "0", "yes", "no", "y", "n", "t", "f"].any
    (fun w => v.map Char.toLower = w.toList)

/-- Lines 27-28: canonical 8-4-4-4-12 hex UUID, case-insensitive.  Hex digits
never contain `-`, so the dash-split decomposition is exactly the regex. -/
def isUuid (v : List Char) : Bool :=
  match splitOnC '-' v with
  | [a, b, c, d, e] =>
    a.length = 8 && b.length = 4 && c.length = 4 && d.length = 4 && e.length = 12
      && (a ++ b ++ c ++ d ++ e).all isHexC
  | _ => false

def emailLocalC (c : Char) : Bool :=
  isAlphaC c || isDigitC c || c = '.' || c = '_' || c = '%' || c = '+' || c = '-'

def emailDomainC (c : Char) : Bool :=
  isAlphaC c || isDigitC c || c = '.' || c = '-'

/-- Lines 32-33: `^[a-zA-Z0-9._%+-]+@[a-zA-Z0-9.-]+\.[a-zA-Z]{2,}$`.  Neither
character class contains `@`, and the TLD is all-alphabetic so the length-≥2
alphabetic suffix must follow the *last* dot of the domain. -/
def isEmail (v : List Char) : Bool :=
  match splitOnC '@' v with
  | [loc, dom] =>
    decide (loc ≠ []) && loc.all emailLocalC &&
      (match (splitOnC '.' dom).reverse with
       | tld :: preParts =>
         decide (preParts ≠ []) && 2 ≤ tld.length && tld.all isAlphaC
           && decide ((List.intercalate ['.'] preParts.reverse) ≠ [])
           && (List.intercalate ['.'] preParts.reverse).all emailDomainC
       | [] => false)
  | _ => false

/-- Lines 37-38: `^https?://[^\s/$.?#].[^\s]*$`, case-insensitive: the scheme,
one character outside `\s/$.?#`, one arbitrary non-newline character, then
non-whitespace to the end. -/
def isUrl (v : List Char) : Bool :=
  let low := v.map Char.toLower
  let afterScheme : Option (List Char) :=
    match low with
    | 'h' :: 't' :: 't' :: 'p' :: 's' :: ':' :: '/' :: '/' :: rest => some rest
    | 'h' :: 't' :: 't' :: 'p' :: ':' :: '/' :: '/' :: rest => some rest
    | _ => none
  match afterScheme with
  | some (c₁ :: c₂ :: rest) =>
    !(isPySpace c₁ || c₁ = '/' || c₁ = '$' || c₁ = '.' || c₁ = '?' || c₁ = '#')
      && c₂ ≠ '\n' && rest.all (fun c => !isPySpace c)
  | _ => false

/-- Lines 42-46: `^(\d{1,3}\.){3}\d{1,3}$` plus the 0-255 octet range check. -/
def isIpv4 (v : List Char) : Bool :=
  match splitOnC '.' v with
  | [a, b, c, d] =>
    [a, b, c, d].all fun p =>
      1 ≤ p.length && p.length ≤ 3 && p.all isDigitC && digitsToNat p ≤ 255
  | _ => false

/-- Lines 49-50: exactly 8 colon-separated groups of 1-4 hex digits. -/
def isIpv6 (v : List Char) : Bool :=
  match splitOnC ':' v with
  | parts =>
    parts.length = 8 && parts.all fun p =>
      1 ≤ p.length && p.length ≤ 4 && p.all isHexC

/-- Lines 54-55: `^([0-9A-Fa-f]{2}[:-]){5}([0-9A-Fa-f]{2})$` — six hex byte
pairs separated by `:` or `-` (separators may be mixed). -/
def isMac (v : List Char) : Bool :=
  match v with
  | [a₁, a₂, s₁, b₁, b₂, s₂, c₁, c₂, s₃, d₁, d₂, s₄, e₁, e₂, s₅, f₁, f₂] =>
    [a₁, a₂, b₁, b₂, c₁, c₂, d₁, d₂, e₁, e₂, f₁, f₂].all isHexC
      && [s₁, s₂, s₃, s₄, s₅].all (fun s => s = ':' || s = '-')
  | _ => false

/-- Lines 59-60: strip whitespace and dashes anywhere, then 13-19 digits. -/
def isCreditCard (v : List Char) : Bool :=
  let cleaned := v.filter fun c => !(isPySpace c || c = '-')
  cleaned.all isDigitC && 13 ≤ cleaned.length && cleaned.length ≤ 19

def phoneClassC (c : Char) : Bool :=
  isDigitC c || isPySpace c || c = '-' || c = '(' || c = ')'

def phoneSepOpt (l : List Char) : List (List Char) :=
  match l with
  | c :: rest => if isPySpace c || c = '-' then [l, rest] else [l]
  | [] => [l]

/-- Digit-group alternatives for pattern 4: all ways to take `1 ≤ k ≤ hi`
leading digits. -/
def digitTakes (hi : Nat) (l : List Char) : List (List Char) :=
  (List.range hi).filterMap fun k =>
    if l.take (k + 1) |>.all isDigitC then
      if (l.take (k + 1)).length = k + 1 then some (l.drop (k + 1)) else none
    else none

/-- Lines 64-70: any of the four phone patterns matches.  Pattern 4
(`^\+\d{1,3}[\s\-]?\d{1,4}[\s\-]?\d{1,4}[\s\-]?\d{1,9}$`) is decided by
enumerating every quantifier split, which is exactly regex match existence. -/
def isPhone (v : List Char) : Bool :=
  let p1 :=
    let body := match v with
      | '+' :: rest => rest
      | _ => v
    10 ≤ body.length && body.all phoneClassC
  let p2 := match v with
    | [a, b, c, '-', d, e, f, '-', g, h, i, j] => [a, b, c, d, e, f, g, h, i, j].all isDigitC
    | _ => false
  let p3 := match v with
    | ['(', a, b, c, ')', s, d, e, f, '-', g, h, i, j] =>
      isPySpace s && [a, b, c, d, e, f, g, h, i, j].all isDigitC
    | ['(', a, b, c, ')', d, e, f, '-', g, h, i, j] =>
      [a, b, c, d, e, f, g, h, i, j].all isDigitC
    | _ => false
  let p4 := match v with
    | '+' :: rest =>
      (digitTakes 3 rest).any fun r1 =>
        (phoneSepOpt r1).any fun r1' =>
          (digitTakes 4 r1').any fun r2 =>
            (phoneSepOpt r2).any fun r2' =>
              (digitTakes 4 r2').any fun r3 =>
                (phoneSepOpt r3).any fun r3' =>
                  (digitTakes 9 r3').any fun r4 => r4 = []
    | _ => false
  p1 || p2 || p3 || p4

/-- Line 83: the "two bare numbers around one comma" coordinate-pair pattern
`^-?\d+\.?\d*,\d+\.?\d*$`.  The halves contain no comma, so the split at the
(then unique) comma is exact; each half is `digits+ [. digits*]`. -/
def numHalf (l : List Char) : Bool :=
  let ds := l.takeWhile isDigitC
  let rest := l.dropWhile isDigitC
  decide (ds ≠ []) &&
    (match rest with
     | [] => true
     | '.' :: r => r.all isDigitC
     | _ => false)

def isCoordPair (v : List Char) : Bool :=
  match splitOnC ',' v with
  | [a, b] =>
    (match a with
     | '-' :: a' => numHalf a'
     | _ => numHalf a) && numHalf b
  | _ => false

/-- Lines 83-86: contains a comma, is not a coordinate pair (a comma split
always yields ≥ 2 parts, so the `len(parts) > 1` guard is vacuous). -/
def isCommaArray (v : List Char) : Bool :=
  v.contains ',' && !isCoordPair v

/-- Lines 89-95: ends with `%` and the stripped remainder parses as a float. -/
def isPercentage (v : List Char) : Bool :=
  match v.reverse with
  | '%' :: revRest =>
    (pyFloat (pyStripList revRest.reverse)).isSome
  | _ => false

/-- Lines 98-99: `^[\$€£¥₹]\s?[\d,]+\.?\d*$`. -/
def isCurrency (v : List Char) : Bool :=
  match v with
  | sym :: rest =>
    (sym = '$' || sym = '€' || sym = '£' || sym = '¥' || sym = '₹') &&
      (let body := match rest with
        | c :: rest' => if isPySpace c then rest' else rest
        | [] => rest
       let digitsPart := body.takeWhile fun c => isDigitC c || c = ','
       let tail := body.dropWhile fun c => isDigitC c || c = ','
       decide (digitsPart ≠ []) &&
         (match tail with
          | [] => true
          | '.' :: r => r.all isDigitC
          | _ => false))
  | [] => false

/-- Lines 171-176 (case-insensitive): US 5 or 5+4 ZIP, Canadian
letter-digit-letter (optional space) digit-letter-digit, or UK 1-2 letters,
1-2 digits, optional space, digit and two letters. -/
def isPostal (v : List Char) : Bool :=
  let us := match v with
    | [a, b, c, d, e] => [a, b, c, d, e].all isDigitC
    | [a, b, c, d, e, '-', f, g, h, i] => [a, b, c, d, e, f, g, h, i].all isDigitC
    | _ => false
  let ca := match v with
    | [a, b, c, s, d, e, f] =>
      isAlphaC a && isDigitC b && isAlphaC c && isPySpace s
        && isDigitC d && isAlphaC e && isDigitC f
    | [a, b, c, d, e, f] =>
      isAlphaC a && isDigitC b && isAlphaC c && isDigitC d && isAlphaC e && isDigitC f
    | _ => false
  let ukTail (l : List Char) : Bool := match l with
    | [s, d, e, f] => isPySpace s && isDigitC d && isAlphaC e && isAlphaC f
    | [d, e, f] => isDigitC d && isAlphaC e && isAlphaC f
    | _ => false
  let uk := match v with
    | a :: b :: c :: d :: rest =>
      (isAlphaC a && isAlphaC b && isDigitC c && isDigitC d && ukTail rest) ||
      (isAlphaC a && isAlphaC b && isDigitC c && ukTail (d :: rest)) ||
      (isAlphaC a && isDigitC b && isDigitC c && ukTail (d :: rest)) ||
      (isAlphaC a && isDigitC b && ukTail (c :: d :: rest))
    | _ => false
  us || ca || uk

/-- Lines 180-181 (case-sensitive): `^(ISBN[- ]?)?(\d{10}|\d{13})$`. -/
def isIsbn (v : List Char) : Bool :=
  let digitsPart : List Char := match v with
    | 'I' :: 'S' :: 'B' :: 'N' :: '-' :: rest => rest
    | 'I' :: 'S' :: 'B' :: 'N' :: ' ' :: rest => rest
    | 'I' :: 'S' :: 'B' :: 'N' :: rest => rest
    | _ => v
  (digitsPart.length = 10 || digitsPart.length = 13) && digitsPart.all isDigitC

def base64C (c : Char) : Bool :=
  isAlphaC c || isDigitC c || c = '+' || c = '/'

/-- Lines 185-186: length a multiple of 4 and > 20, and
`^[A-Za-z0-9+/]+=*$` — a nonempty base64 body followed by trailing `=`s. -/
def isBase64 (v : List Char) : Bool :=
  let body := v.takeWhile (fun c => c ≠ '=')
  let pad := v.dropWhile (fun c => c ≠ '=')
  v.length % 4 = 0 && 20 < v.length && decide (body ≠ []) && body.all base64C
    && pad.all (fun c => c = '=')

/-- Lines 190-191: `^#?[0-9A-Fa-f]{6}$`. -/
def isHexColor (v : List Char) : Bool :=
  match v with
  | '#' :: rest => rest.length = 6 && rest.all isHexC
  | _ => v.length = 6 && v.all isHexC

/-! ### `json.loads` syntax validity (for the JSON check, lines 74-80).
A recursive-descent recogniser for the `json` module's default grammar:
standard JSON plus the `NaN` / `Infinity` / `-Infinity` constants, strict
strings (raw control characters rejected).  The mutual recursion carries fuel;
every recursive call follows the consumption of at least one character, so the
fuel supplied at the entry point (`2 * length + 8`) can never be exhausted. -/

def jsonWsC (c : Char) : Bool := c = ' ' || c = '\t' || c = '\n' || c = '\r'

def jsonWs (l : List Char) : List Char := l.dropWhile jsonWsC

/-- One JSON number: `-?(0|[1-9]\d*)(\.\d+)?([eE][+-]?\d+)?`. -/
def jsonNum (l : List Char) : Option (List Char) :=
  let afterSign := match l with
    | '-' :: rest => some rest
    | _ => some l
  match afterSign with
  | some body =>
    let afterInt : Option (List Char) :=
      match body with
      | '0' :: rest => some rest
      | c :: rest => if isDigitC c && c ≠ '0' then some (rest.dropWhile isDigitC) else none
      | [] => none
    match afterInt with
    | none => none
    | some rest1 =>
      let afterFrac : Option (List Char) :=
        match rest1 with
        | '.' :: d :: rest' =>
          if isDigitC d then some (rest'.dropWhile isDigitC) else none
        | '.' :: [] => none
        | _ => some rest1
      match afterFrac with
      | none => none
      | some rest2 =>
        match rest2 with
        | e :: rest' =>
          if e = 'e' || e = 'E' then
            let expBody := match rest' with
              | '+' :: r => r
              | '-' :: r => r
              | _ => rest'
            match expBody with
            | d :: r => if isDigitC d then some (r.dropWhile isDigitC) else none
            | [] => none
          else some rest2
        | [] => some rest2
  | none => none

/-- Consume the remainder of a JSON string literal (opening quote already
consumed). -/
def jsonStrRest : List Char → Option (List Char)
  | [] => none
  | '"' :: rest => some rest
  | '\\' :: e :: rest =>
    if e = '"' || e = '\\' || e = '/' || e = 'b' || e = 'f' || e = 'n' || e = 'r' || e = 't'
    then jsonStrRest rest
    else if e = 'u' then
      match rest with
      | h₁ :: h₂ :: h₃ :: h₄ :: rest' =>
        if [h₁, h₂, h₃, h₄].all isHexC then jsonStrRest rest' else none
      | _ => none
    else none
  | '\\' :: [] => none
  | c :: rest => if c.toNat < 0x20 then none else jsonStrRest rest

mutual
/-- Consume one JSON value. -/
def jsonVal : Nat → List Char → Option (List Char)
  | 0, _ => none
  | fuel + 1, l =>
    match l with
    | '{' :: rest => jsonObjBody fuel (jsonWs rest) true
    | '[' :: rest => jsonArrBody fuel (jsonWs rest) true
    | '"' :: rest => jsonStrRest rest
    | 't' :: 'r' :: 'u' :: 'e' :: rest => some rest
    | 'f' :: 'a' :: 'l' :: 's' :: 'e' :: rest => some rest
    | 'n' :: 'u' :: 'l' :: 'l' :: rest => some rest
    | 'N' :: 'a' :: 'N' :: rest => some rest
    | 'I' :: 'n' :: 'f' :: 'i' :: 'n' :: 'i' :: 't' :: 'y' :: rest => some rest
    | '-' :: 'I' :: 'n' :: 'f' :: 'i' :: 'n' :: 'i' :: 't' :: 'y' :: rest => some rest
    | _ => jsonNum l

/-- Consume the members of an object after `{`; `first` is true before any
member has been read. -/
def jsonObjBody : Nat → List Char → Bool → Option (List Char)
  | 0, _, _ => none
  | fuel + 1, l, first =>
    match l with
    | '}' :: rest => if first then some rest else none
    | '"' :: rest =>
      match jsonStrRest rest with
      | none => none
      | some afterKey =>
        match jsonWs afterKey with
        | ':' :: afterColon =>
          match jsonVal fuel (jsonWs afterColon) with
          | none => none
          | some afterVal =>
            match jsonWs afterVal with
            | ',' :: afterComma => jsonObjBody fuel (jsonWs afterComma) false
            | '}' :: rest' => some rest'
            | _ => none
        | _ => none
    | _ => none

/-- Consume the elements of an array after `[`. -/
def jsonArrBody : Nat → List Char → Bool → Option (List Char)
  | 0, _, _ => none
  | fuel + 1, l, first =>
    match l with
    | ']' :: rest => if first then some rest else none
    | _ =>
      match jsonVal fuel l with
      | none => none
      | some afterVal =>
        match jsonWs afterVal with
        | ',' :: afterComma => jsonArrBody fuel (jsonWs afterComma) false
        | ']' :: rest' => some rest'
        | _ => none
end

/-- Python `json.loads(value)` succeeds: optional surrounding whitespace around one
JSON value consuming the entire input. -/
def jsonLoadsOk (v : List Char) : Bool :=
  match jsonVal (2 * v.length + 8) (jsonWs v) with
  | some rest => jsonWs rest = []
  | none => false

/-- Lines 74-80: brace/bracket-delimited and valid JSON. -/
def isJsonCheck (v : List Char) : Bool :=
  (match v, v.reverse with
   | '{' :: _, '}' :: _ => true
   | '[' :: _, ']' :: _ => true
   | _, _ => false)
  && jsonLoadsOk v

/-! ### `datetime.strptime` against the 17 formats of lines 103-132.
CPython's `_strptime` compiles a format string into a regex
(`TimeRE`, `IGNORECASE`): `%Y` is exactly four digits, `%m` is
`1[0-2]|0[1-9]|[1-9]`, `%d` is `3[01]|[12]\d|0[1-9]|[1-9]`, `%H` is
`2[0-3]|[0-1]\d|\d`, `%M` is `[0-5]\d|\d`, `%S` is `6[01]|[0-5]\d|\d`, `%f` is
`[0-9]{1,6}`, `%z` is `[+-]\d\d:?\d\d(:?\d\d(\.\d{1,6})?)?` or a literal `Z`,
a whitespace literal is `\s+`, any other literal matches itself
case-insensitively; the match must consume the whole string, and the parsed
fields must then build a valid `datetime` (else `ValueError`, caught by
`infer_types`, which moves to the next format).  The token interpreters below
return *every* way a token can consume a prefix, so a successful total parse
exists iff the regex matches. -/

inductive FTok : Type where
  | dY | dm | dd | dH | dM | dS | df | dz
  | lit (c : Char)
  | lws
deriving DecidableEq

/-- Interpret a strptime format string (only directives used by the 17
formats appear). -/
def fmtToks : List Char → List FTok
  | [] => []
  | '%' :: c :: rest =>
    (match c with
     | 'Y' => FTok.dY
     | 'm' => FTok.dm
     | 'd' => FTok.dd
     | 'H' => FTok.dH
     | 'M' => FTok.dM
     | 'S' => FTok.dS
     | 'f' => FTok.df
     | 'z' => FTok.dz
     | c' => FTok.lit c') :: fmtToks rest
  | c :: rest => (if isPySpace c then FTok.lws else FTok.lit c) :: fmtToks rest

/-- Parsed time fields with `_strptime` defaults (1900-01-01 00:00:00). -/
structure PTime : Type where
  y : Nat := 1900
  m : Nat := 1
  d : Nat := 1
  hh : Nat := 0
  mm : Nat := 0
  ss : Nat := 0
  zoff : Option Int := none
deriving DecidableEq

/-- Two-digit-or-one-digit field alternatives: all regex alternatives of the
given two-character and one-character forms that apply at the current input. -/
def fieldAlts (two : Nat → Nat → Bool) (one : Nat → Bool) (l : List Char) :
    List (Nat × List Char) :=
  (match l with
   | a :: b :: rest =>
     if isDigitC a && isDigitC b && two (digitVal a) (digitVal b) then
       [(10 * digitVal a + digitVal b, rest)]
     else []
   | _ => []) ++
  (match l with
   | a :: rest => if isDigitC a && one (digitVal a) then [(digitVal a, rest)] else []
   | _ => [])

/-- The `%z` alternatives; the value is the offset in seconds. -/
def zAlts (l : List Char) : List (Int × List Char) :=
  match l with
  | 'Z' :: rest => [(0, rest)]
  | s :: rest =>
    if s = '+' || s = '-' then
      let sgn : Int := if s = '-' then -1 else 1
      match rest with
      | h₁ :: h₂ :: rest₂ =>
        if isDigitC h₁ && isDigitC h₂ then
          let hh := 10 * digitVal h₁ + digitVal h₂
          let afterColon := match rest₂ with
            | ':' :: r => r
            | _ => rest₂
          match afterColon with
          | m₁ :: m₂ :: rest₃ =>
            if isDigitC m₁ && isDigitC m₂ then
              let mm := 10 * digitVal m₁ + digitVal m₂
              let base : Int := sgn * ((hh * 3600 : Nat) + (mm * 60 : Nat))
              let afterColon₂ := match rest₃ with
                | ':' :: r => r
                | _ => rest₃
              let secAlts : List (Int × List Char) :=
                match afterColon₂ with
                | s₁ :: s₂ :: rest₄ =>
                  if isDigitC s₁ && isDigitC s₂ then
                    let sec := 10 * digitVal s₁ + digitVal s₂
                    let withSec : Int := base + sgn * (sec : Nat)
                    (match rest₄ with
                     | '.' :: rest₅ =>
                       (digitTakes 6 rest₅).map fun r => (withSec, r)
                     | _ => []) ++ [(withSec, rest₄)]
                  else []
                | _ => []
              secAlts ++ [(base, rest₃)]
            else []
          | _ => []
        else []
      | _ => []
    else []
  | [] => []

/-- All ways a single token consumes a prefix of the input. -/
def tokAlts (t : FTok) (st : PTime) (l : List Char) : List (PTime × List Char) :=
  match t with
  | .dY =>
    match l with
    | a :: b :: c :: d :: rest =>
      if [a, b, c, d].all isDigitC then
        [({ st with y := digitsToNat [a, b, c, d] }, rest)]
      else []
    | _ => []
  | .dm =>
    (fieldAlts (fun a b => (a = 1 && b ≤ 2) || (a = 0 && 1 ≤ b)) (fun a => 1 ≤ a) l).map
      fun (n, r) => ({ st with m := n }, r)
  | .dd =>
    (fieldAlts
      (fun a b => (a = 3 && b ≤ 1) || (a = 1 || a = 2) || (a = 0 && 1 ≤ b))
      (fun a => 1 ≤ a) l).map fun (n, r) => ({ st with d := n }, r)
  | .dH =>
    (fieldAlts (fun a b => (a = 2 && b ≤ 3) || a ≤ 1) (fun _ => true) l).map
      fun (n, r) => ({ st with hh := n }, r)
  | .dM =>
    (fieldAlts (fun a _ => a ≤ 5) (fun _ => true) l).map
      fun (n, r) => ({ st with mm := n }, r)
  | .dS =>
    (fieldAlts (fun a b => (a = 6 && b ≤ 1) || a ≤ 5) (fun _ => true) l).map
      fun (n, r) => ({ st with ss := n }, r)
  | .df =>
    -- value not retained: any 1-6 digit fraction yields a valid microsecond
    (digitTakes 6 l).map fun r => (st, r)
  | .dz => (zAlts l).map fun (z, r) => ({ st with zoff := some z }, r)
  | .lit c =>
    match l with
    | a :: rest => if a.toLower = c.toLower then [(st, rest)] else []
    | [] => []
  | .lws =>
    -- `\s+`: consume between 1 and all of the leading whitespace characters
    let run := (l.takeWhile isPySpace).length
    (List.range run).map fun k => (st, l.drop (k + 1))

/-- Run a token list over the input, collecting the field assignments of every
complete match. -/
def runToks : List FTok → PTime → List Char → List PTime
  | [], st, l => if l = [] then [st] else []
  | t :: ts, st, l => (tokAlts t st l).flatMap fun (st', l') => runToks ts st' l'

def isLeap (y : Nat) : Bool := y % 4 = 0 && (y % 100 ≠ 0 || y % 400 = 0)

def daysInMonth (y m : Nat) : Nat :=
  if m = 2 then (if isLeap y then 29 else 28)
  else if m = 4 || m = 6 || m = 9 || m = 11 then 30
  else 31

/-- The parsed fields build a valid `datetime` (with a valid fixed-offset
timezone when `%z` was parsed): `MINYEAR ≤ year`, valid day-of-month,
`second ≤ 59`, `|offset| < 24h`.  Month/hour/minute ranges are already
enforced by the field patterns. -/
def validPTime (st : PTime) : Bool :=
  1 ≤ st.y && 1 ≤ st.d && st.d ≤ daysInMonth st.y st.m && st.ss ≤ 59 &&
    (match st.zoff with
     | none => true
     | some z => z.natAbs < 24 * 3600)

/-- Python `datetime.strptime(value, fmt)` succeeds. -/
def strptimeOk (fmt : String) (v : List Char) : Bool :=
  (runToks (fmtToks fmt.toList) {} v).any validPTime

/-- Lines 103-121: the ordered format list. -/
def dateTimeFormats : List String :=
  ["%Y-%m-%d",
   "%Y-%m-%d %H:%M:%S",
   "%Y-%m-%dT%H:%M:%S",
   "%Y-%m-%dT%H:%M:%S.%f",
   "%Y-%m-%dT%H:%M:%S%z",
   "%Y-%m-%dT%H:%M:%S.%f%z",
   "%m/%d/%Y",
   "%m-%d-%Y",
   "%m/%d/%Y %H:%M:%S",
   "%d/%m/%Y",
   "%d-%m-%Y",
   "%d/%m/%Y %H:%M:%S",
   "%Y/%m/%d",
   "%d.%m.%Y",
   "%Y.%m.%d",
   "%H:%M:%S",
   "%H:%M"]

/-- Line 127: a format counts as datetime-bearing when it contains `T`, a
space, or `%H`. -/
def fmtIsDatetime (fmt : String) : Bool :=
  fmt.toList.contains 'T' || fmt.toList.contains ' ' ||
    (fmtToks fmt.toList).contains FTok.dH

/-- Lines 124-132: try each format in order; on the first success return
`('datetime','datetime')` or `('date','date')` according to the format. -/
def dateTimeCheck (v : List Char) : Option (Option String × String) :=
  match dateTimeFormats.find? (fun fmt => strptimeOk fmt v) with
  | some fmt =>
    if fmtIsDatetime fmt then some (some "datetime", "datetime")
    else some (some "date", "date")
  | none => none

/-! ### `infer_types` (data_infer.py lines 7-195) -/

/-- Lines 134-141: parses as a float within the Unix-timestamp window
`[0, 4102444800]`.  (`datetime.fromtimestamp` never fails inside that window
on a POSIX system; `NaN`/`inf` fail the range comparison just as in Python.) -/
def isTimestampCheck (v : List Char) : Bool :=
  match pyFloat v with
  | some (.fin x) => x.inRange0 4102444800
  | _ => false

/-- Lines 152-159: `float(value)` succeeded (and the integer check before it
failed); scientific notation → `number`, decimal point → `float`, else
`number`. -/
def floatBranch (v : List Char) : Option String × String :=
  if (v.map Char.toLower).contains 'e' then (none, "number")
  else if v.contains '.' then (none, "float")
  else (none, "number")

/-- The ordered first-match-wins cascade of `infer_types` applied to the
stripped, non-empty value. -/
def inferStripped (v : List Char) : Option String × String :=
  if isBoolLit v then (none, "boolean")
  else if isUuid v then (some "uuid", "string")
  else if isEmail v then (some "email", "string")
  else if isUrl v then (some "url", "string")
  else if isIpv4 v then (some "ip_address", "string")
  else if isIpv6 v then (some "ipv6_address", "string")
  else if isMac v then (some "mac_address", "string")
  else if isCreditCard v then (some "credit_card", "string")
  else if isPhone v then (some "phone_number", "string")
  else if isJsonCheck v then (some "json", "string")
  else if isCommaArray v then (some "array", "string")
  else if isPercentage v then (some "percentage", "number")
  else if isCurrency v then (some "currency", "string")
  else
    match dateTimeCheck v with
    | some r => r
    | none =>
      if isTimestampCheck v then (some "timestamp", "number")
      else if pyIntOk v then (none, "integer")
      else if (pyFloat v).isSome then floatBranch v
      else if pyDecimalOk v then (none, "decimal")
      else if isPostal v then (some "postal_code", "string")
      else if isIsbn v then (some "isbn", "string")
      else if isBase64 v then (some "base64", "string")
      else if isHexColor v then (some "hex_color", "string")
      else (none, "string")

/-- The classifier `infer_types(value)` for a string argument (lines 7-195): empty or
whitespace-only values are null; otherwise the stripped value runs the
cascade. -/
def infer_types (value : String) : Option String × String :=
  if value = "" || pyStrip value = "" then (none, "null")
  else inferStripped (pyStrip value).toList

/-! ### Schema data model.
A `type` or `business_type` slot holds a Python value that is either absent
(`dict.get` returns `None`), a string tag, or a (possibly nested) list — the
merger can append a whole list into a list. -/

inductive TagVal : Type where
  | pynone : TagVal
  | s (tag : String) : TagVal
  | lst (tags : List TagVal) : TagVal

mutual
/-- Python `==` on these values. -/
def TagVal.beq : TagVal → TagVal → Bool
  | .pynone, .pynone => true
  | .s a, .s b => a = b
  | .lst a, .lst b => TagVal.beqList a b
  | _, _ => false

def TagVal.beqList : List TagVal → List TagVal → Bool
  | [], [] => true
  | a :: as', b :: bs => TagVal.beq a b && TagVal.beqList as' bs
  | _, _ => false
end

/-- Python `x in l` for a list of such values. -/
def TagVal.mem (x : TagVal) (l : List TagVal) : Bool :=
  l.any fun y => TagVal.beq x y

/-- Python truthiness: `None`, `""` and `[]` are falsy. -/
def TagVal.truthy : TagVal → Bool
  | .pynone => false
  | .s t => decide (t ≠ "")
  | .lst l => !l.isEmpty

/-- One property schema: the dict keys that the generators ever create.
`none` in a slot means the key is absent. -/
inductive PropSchema : Type where
  | mk (type? : Option TagVal) (businessType? : Option TagVal)
       (description? : Option String)
       (properties? : Option (List (String × PropSchema)))
       (items? : Option PropSchema) : PropSchema

def PropSchema.type? : PropSchema → Option TagVal
  | .mk t _ _ _ _ => t

def PropSchema.businessType? : PropSchema → Option TagVal
  | .mk _ b _ _ _ => b

def PropSchema.description? : PropSchema → Option String
  | .mk _ _ d _ _ => d

def PropSchema.properties? : PropSchema → Option (List (String × PropSchema))
  | .mk _ _ _ p _ => p

def PropSchema.items? : PropSchema → Option PropSchema
  | .mk _ _ _ _ i => i

/-- Python `prop.get("type")`: `None` when the key is absent. -/
def PropSchema.getType (p : PropSchema) : TagVal :=
  p.type?.getD .pynone

/-- Python `prop.get("business_type")`. -/
def PropSchema.getBusiness (p : PropSchema) : TagVal :=
  p.businessType?.getD .pynone

def PropSchema.setType (p : PropSchema) (t : TagVal) : PropSchema :=
  match p with
  | .mk _ b d pr i => .mk (some t) b d pr i

def PropSchema.setBusiness (p : PropSchema) (t : TagVal) : PropSchema :=
  match p with
  | .mk ty _ d pr i => .mk ty (some t) d pr i

def PropSchema.setProperties (p : PropSchema) (m : List (String × PropSchema)) : PropSchema :=
  match p with
  | .mk ty b d _ i => .mk ty b d (some m) i

def PropSchema.setItems (p : PropSchema) (it : PropSchema) : PropSchema :=
  match p with
  | .mk ty b d pr _ => .mk ty b d pr (some it)

/-- The empty dict `{}` used as the default for missing `items`. -/
def emptyProp : PropSchema := .mk none none none none none

/-- The `schema["metadata"]` for the JSONL generator. -/
structure SchemaMetadata : Type where
  num_rows : Nat
  num_fields : Nat
  file_type : String

/-- The returned schema document. -/
structure SchemaDoc : Type where
  schemaUri : String
  typ : String
  properties : List (String × PropSchema)
  required : List String
  metadata : Option SchemaMetadata

/-! ### Assoc-list operations mirroring Python dicts (insertion-ordered,
first-match lookup). -/

def lookupA {α : Type} (m : List (String × α)) (k : String) : Option α :=
  (m.find? fun p => p.1 = k).map Prod.snd

/-- Replace the value at the first occurrence of `k`, keeping its position. -/
def updateA {α : Type} (m : List (String × α)) (k : String) (v : α) :
    List (String × α) :=
  match m with
  | [] => []
  | (k', v') :: rest =>
    if k' = k then (k', v) :: rest else (k', v') :: updateA rest k v

/-- Python `set.add` on a first-insertion-ordered duplicate-free list. -/
def setAdd (s : List String) (x : String) : List String :=
  if s.contains x then s else s ++ [x]

/-! ### The tabular generator (`csv_schema_generator.py` lines 5-90).
The row-iteration collaborator hands over the header list and the rows as cell
lists aligned positionally with the headers (`DictReader` semantics: a missing
cell classifies as null, exactly like the `''` default).  Headers are assumed
distinct, as a `DictReader` key set is. -/

/-- One header's step of the per-row loop (lines 23-28): classify the cell at
the header's position and add the results to that column's sets. -/
def csvCellStep (row : List String)
    (acc : List (String × List String) × List (String × List String))
    (p : Nat × String) :
    List (String × List String) × List (String × List String) :=
  let value := row.getD p.1 ""
  let r := infer_types value
  let bt' := match r.1 with
    | some b => updateA acc.1 p.2 (setAdd ((lookupA acc.1 p.2).getD []) b)
    | none => acc.1
  let dt' := updateA acc.2 p.2 (setAdd ((lookupA acc.2 p.2).getD []) r.2)
  (bt', dt')

/-- Lines 19-31: one row's pass over all headers, adding classifier outputs to
the per-column business-type and data-type sets. -/
def csvProcessRow (headers : List String) (row : List String)
    (acc : List (String × List String) × List (String × List String)) :
    List (String × List String) × List (String × List String) :=
  headers.enum.foldl (csvCellStep row) acc

/-- Lines 41-63: the branch on a column's non-null data types that decides
membership in `required` — only a single non-null data type with no null
observed appends the header. -/
def csvColumnRequired (dataTypes : List String) : Bool :=
  match dataTypes.filter fun t => t ≠ "null" with
  | [_] => !dataTypes.contains "null"
  | _ => false

/-- Lines 41-72: the `type` value of one finalized column. -/
def csvColumnType (dataTypes : List String) : TagVal :=
  match dataTypes.filter fun t => t ≠ "null" with
  | [] => .lst [.s "string", .s "null"]
  | [dataType] =>
    if dataTypes.contains "null" then .lst [.s dataType, .s "null"]
    else .s dataType
  | nonNull =>
    .lst ((if dataTypes.contains "null" then nonNull ++ ["null"] else nonNull).map .s)

/-- Lines 37-81: finalize one column into its property schema and the
`required` flag. -/
def csvFinalizeColumn (header : String) (businessTypes dataTypes : List String) :
    PropSchema × Bool :=
  let base : PropSchema :=
    .mk (some (csvColumnType dataTypes)) none (some ("Column: " ++ header)) none none
  let withBusiness :=
    match businessTypes with
    | [] => base
    | [b] => base.setBusiness (.s b)
    | bs => base.setBusiness (.lst (bs.map .s))
  (withBusiness, csvColumnRequired dataTypes)

/-- One header's step of the schema-building loop (lines 37-81). -/
def csvBuildStep (bt dt : List (String × List String))
    (acc : List (String × PropSchema) × List String) (h : String) :
    List (String × PropSchema) × List String :=
  let r := csvFinalizeColumn h ((lookupA bt h).getD []) ((lookupA dt h).getD [])
  (acc.1 ++ [(h, r.1)], if r.2 then acc.2 ++ [h] else acc.2)

/-- The generator `generate_csv_schema(path, sample_rows)` (lines 5-90). -/
def generate_csv_schema (headers : List String) (rows : List (List String))
    (sample_rows : Nat) : SchemaDoc :=
  let init : List (String × List String) := headers.map fun h => (h, [])
  let scan := (rows.take sample_rows).foldl
    (fun acc row => csvProcessRow headers row acc) (init, init)
  let build := headers.foldl (csvBuildStep scan.1 scan.2) ([], [])
  { schemaUri := "http://json-schema.org/draft-07/schema#"
    typ := "object"
    properties := build.1
    required := build.2
    metadata := none }

/-! ### Decoded JSON records (`jsonl_schema_generator.py`).
`json.loads` output: floats carry their `repr` text, since the generator only
ever consumes a float through `str(value)` / `json.dumps(value)` (IEEE floats
themselves are not embeddable; nothing else inspects the numeric value). -/

inductive JValue : Type where
  | jnull : JValue
  | jbool (b : Bool) : JValue
  | jint (n : Int) : JValue
  | jfloat (rep : String) : JValue
  | jstr (s : String) : JValue
  | jarr (items : List JValue) : JValue
  | jobj (fields : List (String × JValue)) : JValue

/-- The mapping `_python_type_to_json_schema_type` (lines 6-23).  `bool` is tested before
`int`, as in the source. -/
def pythonTypeToJsonSchemaType : JValue → String
  | .jnull => "null"
  | .jbool _ => "boolean"
  | .jint _ => "integer"
  | .jfloat _ => "number"
  | .jstr _ => "string"
  | .jarr _ => "array"
  | .jobj _ => "object"

/-- Python `str(value)` for the scalar values it is applied to (lines 74, 126); the
generators never call `str` on a dict or list (those go through
`json.dumps`), so the composite cases are unreachable. -/
def pyStr : JValue → String
  | .jnull => "None"
  | .jbool b => if b then "True" else "False"
  | .jint n => toString n
  | .jfloat rep => rep
  | .jstr s => s
  | .jarr _ => ""
  | .jobj _ => ""

def hexDigitC (n : Nat) : Char :=
  if n < 10 then Char.ofNat ('0'.toNat + n) else Char.ofNat ('a'.toNat + n - 10)

def hex4 (n : Nat) : List Char :=
  [hexDigitC (n / 4096 % 16), hexDigitC (n / 256 % 16),
   hexDigitC (n / 16 % 16), hexDigitC (n % 16)]

/-- The `json.dumps` escaping of one string character (`ensure_ascii=True`):
two-character escapes for the usual control characters, `\uXXXX` (with
surrogate pairs beyond the BMP) for other control or non-ASCII characters. -/
def jsonEscapeChar (c : Char) : List Char :=
  if c = '"' then ['\\', '"']
  else if c = '\\' then ['\\', '\\']
  else if c = '\n' then ['\\', 'n']
  else if c = '\r' then ['\\', 'r']
  else if c = '\t' then ['\\', 't']
  else if c = '\x08' then ['\\', 'b']
  else if c = '\x0c' then ['\\', 'f']
  else if c.toNat < 0x20 || 0x7f ≤ c.toNat then
    if c.toNat ≤ 0xffff then '\\' :: 'u' :: hex4 c.toNat
    else
      let v := c.toNat - 0x10000
      ('\\' :: 'u' :: hex4 (0xd800 + v / 0x400)) ++ ('\\' :: 'u' :: hex4 (0xdc00 + v % 0x400))
  else [c]

def jsonQuote (s : String) : String :=
  "\"" ++ ⟨s.toList.flatMap jsonEscapeChar⟩ ++ "\""

mutual
/-- Python `json.dumps(value)` with default separators. -/
def jsonDumps : JValue → String
  | .jnull => "null"
  | .jbool b => if b then "true" else "false"
  | .jint n => toString n
  | .jfloat rep => rep
  | .jstr s => jsonQuote s
  | .jarr items => "[" ++ jsonDumpsArr items ++ "]"
  | .jobj fields => "\x7b" ++ jsonDumpsObj fields ++ "\x7d"

def jsonDumpsArr : List JValue → String
  | [] => ""
  | [v] => jsonDumps v
  | v :: rest => jsonDumps v ++ ", " ++ jsonDumpsArr rest

def jsonDumpsObj : List (String × JValue) → String
  | [] => ""
  | [(k, v)] => jsonQuote k ++ ": " ++ jsonDumps v
  | (k, v) :: rest => jsonQuote k ++ ": " ++ jsonDumps v ++ ", " ++ jsonDumpsObj rest
end

/-! ### `_process_nested_object` (lines 26-136) -/

/-- Array-item scan state of lines 66-78: the deduplicated item-type and
item-business-type sets (first-insertion order, see the header note on
Python sets). -/
def arrayItemScan (useBusinessTypes : Bool) (sample : List JValue) :
    List String × List String :=
  sample.foldl
    (fun (acc : List String × List String) item =>
      let itemTypes := setAdd acc.1 (pythonTypeToJsonSchemaType item)
      if useBusinessTypes then
        let itemStr := match item with
          | .jobj _ => jsonDumps item
          | .jarr _ => jsonDumps item
          | _ => pyStr item
        let r := infer_types itemStr
        let bts := match r.1 with
          | some b => setAdd acc.2 b
          | none => acc.2
        (setAdd itemTypes r.2, bts)
      else (itemTypes, acc.2))
    ([], [])

mutual
/-- The per-field loop of `_process_nested_object` (line 46). -/
def processNestedObj (fields : List (String × JValue)) (path : String)
    (sampleRows : Nat) (useBusinessTypes : Bool) : List (String × PropSchema) :=
  match fields with
  | [] => []
  | (key, value) :: rest =>
    let fullPath := if path = "" then key else path ++ "." ++ key
    (key, processValue value fullPath sampleRows useBusinessTypes)
      :: processNestedObj rest path sampleRows useBusinessTypes

/-- The per-value branches of `_process_nested_object` (lines 49-132). -/
def processValue (value : JValue) (fullPath : String) (sampleRows : Nat)
    (useBusinessTypes : Bool) : PropSchema :=
  match value with
  | .jnull => .mk (some (.s "null")) none (some ("Field: " ++ fullPath)) none none
  | .jobj fs =>
    .mk (some (.s "object")) none
      (some ("Field: " ++ fullPath ++ " (nested object)"))
      (some (processNestedObj fs fullPath sampleRows useBusinessTypes)) none
  | .jarr items =>
    match items with
    | [] =>
      .mk (some (.s "array")) none
        (some ("Field: " ++ fullPath ++ " (empty array)")) none (some emptyProp)
    | first :: _ =>
      let scan := arrayItemScan useBusinessTypes (items.take 10)
      let itemTypes := scan.1
      let itemBusinessTypes := scan.2
      let itemsSchema : PropSchema :=
        match itemTypes with
        | [itemType] =>
          if itemType = "object" then
            match first with
            | .jobj fs =>
              .mk (some (.s "object")) none none
                (some (processNestedObj fs (fullPath ++ "[]") sampleRows useBusinessTypes)) none
            | _ => .mk (some (.s itemType)) none none none none
          else .mk (some (.s itemType)) none none none none
        | _ =>
          let typeList := (itemTypes.filter fun t => t ≠ "null")
            ++ (if itemTypes.contains "null" then ["null"] else [])
          .mk (some (if 1 < typeList.length then .lst (typeList.map .s)
                     else .s (typeList.headD ""))) none none none none
      let itemsSchema' :=
        if useBusinessTypes then
          match itemBusinessTypes with
          | [] => itemsSchema
          | [b] => itemsSchema.setBusiness (.s b)
          | bs => itemsSchema.setBusiness (.lst (bs.map .s))
        else itemsSchema
      .mk (some (.s "array")) none (some ("Field: " ++ fullPath ++ " (array)"))
        none (some itemsSchema')
  | _ =>
    -- primitive scalar (lines 117-132)
    let jsonType := pythonTypeToJsonSchemaType value
    let base : PropSchema :=
      .mk (some (.s jsonType)) none (some ("Field: " ++ fullPath)) none none
    if useBusinessTypes then
      let r := infer_types (pyStr value)
      let withB := match r.1 with
        | some b => base.setBusiness (.s b)
        | none => base
      if r.2 ≠ jsonType && r.2 ≠ "null" then withB.setType (.s r.2) else withB
    else base
end

/-! ### `_merge_properties` (lines 139-239) -/

/-- The type-union step of `_merge_properties` (lines 210-219, and the
textually identical array-item variant of lines 185-194): when the two `type`
values differ, a list-valued existing type appends the value type if absent;
a list-valued value type appends the existing type if absent and replaces the
stored type, else leaves the entry untouched; two scalars become a
two-element list.  `et`/`vt` are the already-read `get("type")` values of
`existing` and the incoming dict. -/
def mergeTypeVals (existing : PropSchema) (et vt : TagVal) : PropSchema :=
  if !TagVal.beq et vt then
    match et, vt with
    | .lst el, _ => if TagVal.mem vt el then existing else existing.setType (.lst (el ++ [vt]))
    | _, .lst vl => if TagVal.mem et vl then existing
                    else existing.setType (.lst (vl ++ [et]))
    | _, _ => existing.setType (.lst [et, vt])
  else existing

/-- The business-type union step of `_merge_properties` (lines 222-237),
guarded by Python truthiness of the participating values. -/
def mergeBusinessVals (existing : PropSchema) (eb vb : TagVal) : PropSchema :=
  if !TagVal.beq eb vb then
    match eb, vb with
    | .lst el, _ =>
      if vb.truthy && !TagVal.mem vb el then existing.setBusiness (.lst (el ++ [vb]))
      else existing
    | _, .lst vl =>
      if eb.truthy && !TagVal.mem eb vl then existing.setBusiness (.lst (vl ++ [eb]))
      else existing
    | _, _ =>
      if eb.truthy && vb.truthy then existing.setBusiness (.lst [eb, vb])
      else if vb.truthy then existing.setBusiness vb
      else existing
  else existing

mutual
/-- Merge one value dict into the entry already accumulated for its key
(lines 164-237).  The nested `_merge_properties([ep, vp])` calls of lines 172,
200 first copy `ep` key-by-key into a fresh dict — the identity on a Python
dict's (duplicate-free) items — and then fold `vp` in, i.e. they equal
`mergeDict ubt ep vp`; when the `vp` side is the `{}` default of a missing
key, that fold adds nothing and the merged result is `ep` itself, which is
inlined below. -/
def mergeEntry (ubt : Bool) (existing value : PropSchema) : PropSchema :=
  if TagVal.beq existing.getType (.s "object") && TagVal.beq value.getType (.s "object") then
    -- lines 168-173: recursively merge nested object properties.
    match value with
    | .mk _ _ _ (some vp) _ =>
      existing.setProperties (mergeDict ubt (existing.properties?.getD []) vp)
    | .mk _ _ _ none _ =>
      existing.setProperties (existing.properties?.getD [])
  else if TagVal.beq existing.getType (.s "array") && TagVal.beq value.getType (.s "array") then
    -- lines 176-203
    match value with
    | .mk _ _ _ _ vitems? =>
      let eItems := existing.items?.getD emptyProp
      let vItems := vitems?.getD emptyProp
      let eit := eItems.getType
      let vit := vItems.getType
      let eItems₁ :=
        if eit.truthy && vit.truthy then mergeTypeVals eItems eit vit
        else eItems
      let eItems₂ :=
        if TagVal.beq eItems₁.getType (.s "object") && TagVal.beq vItems.getType (.s "object") then
          match vitems? with
          | some (.mk _ _ _ (some vip) _) =>
            eItems₁.setProperties (mergeDict ubt (eItems₁.properties?.getD []) vip)
          | _ =>
            eItems₁.setProperties (eItems₁.properties?.getD [])
        else eItems₁
      existing.setItems eItems₂
  else
    -- lines 206-237: primitive / mismatched types
    let existing₁ := mergeTypeVals existing existing.getType value.getType
    if ubt then mergeBusinessVals existing₁ existing₁.getBusiness value.getBusiness
    else existing₁

/-- The per-dict loop of `_merge_properties` (lines 158-237): fold the entries
of one property dict into the accumulator. -/
def mergeDict (ubt : Bool) (merged : List (String × PropSchema)) :
    List (String × PropSchema) → List (String × PropSchema)
  | [] => merged
  | (key, value) :: rest =>
    match lookupA merged key with
    | some existing => mergeDict ubt (updateA merged key (mergeEntry ubt existing value)) rest
    | none => mergeDict ubt (merged ++ [(key, value)]) rest
end

/-- The merger `_merge_properties(properties_list)` (lines 139-239): a left fold from the
empty dict (`if not properties_list: return {}` is the fold base). -/
def mergeProperties (ubt : Bool)
    (propertiesList : List (List (String × PropSchema))) :
    List (String × PropSchema) :=
  propertiesList.foldl (fun merged propDict => mergeDict ubt merged propDict) []

/-! ### `generate_jsonl_schema` (lines 242-379) -/

mutual
/-- The keys whose presence counter `track_fields` (lines 323-333) bumps for
one record, in traversal order: every field at its dotted path, recursing into
dict values and into the first element of a nonempty list of dicts (under the
`[]`-suffixed path). -/
def trackKeys (fields : List (String × JValue)) (pre : String) : List String :=
  match fields with
  | [] => []
  | (key, value) :: rest =>
    let fullKey := if pre = "" then key else pre ++ "." ++ key
    fullKey :: (trackKeysVal value fullKey ++ trackKeys rest pre)

/-- The nested-value part of one `track_fields` step: recurse for a dict, or
for the first element of a nonempty list when that element is a dict. -/
def trackKeysVal (value : JValue) (fullKey : String) : List String :=
  match value with
  | .jobj fs => trackKeys fs fullKey
  | .jarr (first :: _) =>
    (match first with
     | .jobj fs => trackKeys fs (fullKey ++ "[]")
     | _ => [])
  | _ => []
end

/-- The update `all_field_presence[k] = all_field_presence.get(k, 0) + 1`. -/
def bumpA (m : List (String × Nat)) (k : String) : List (String × Nat) :=
  match lookupA m k with
  | some n => updateA m k (n + 1)
  | none => m ++ [(k, 1)]

/-- The per-line loop of lines 301-339 over the decoded source (`none` = a
blank or undecodable line, skipped without counting; a decoded non-object
line bumps `total_rows` but produces no schema, no presence marks and no
`row_count` step).  Returns `(total_rows, all_field_presence,
object_schemas)`. -/
def jsonlScan (useBusinessTypes : Bool) (sampleRows : Nat) :
    List (Option JValue) → Nat → Nat → List (String × Nat) →
    List (List (String × PropSchema)) →
    Nat × List (String × Nat) × List (List (String × PropSchema))
  | [], _, total, presence, schemas => (total, presence, schemas)
  | line :: rest, rowCount, total, presence, schemas =>
    if sampleRows ≤ rowCount then (total, presence, schemas)
    else
      match line with
      | none => jsonlScan useBusinessTypes sampleRows rest rowCount total presence schemas
      | some v =>
        match v with
        | .jobj fields =>
          jsonlScan useBusinessTypes sampleRows rest (rowCount + 1) (total + 1)
            ((trackKeys fields "").foldl bumpA presence)
            (schemas ++ [processNestedObj fields "" sampleRows useBusinessTypes])
        | _ =>
          jsonlScan useBusinessTypes sampleRows rest rowCount (total + 1) presence schemas

/-- The generator `generate_jsonl_schema(path, sample_rows, use_business_types)`
(lines 242-379). -/
def generate_jsonl_schema (lines : List (Option JValue)) (sample_rows : Nat)
    (use_business_types : Bool) : SchemaDoc :=
  let scan := jsonlScan use_business_types sample_rows lines 0 0 [] []
  let totalRows := scan.1
  let presence := scan.2.1
  let objectSchemas := scan.2.2
  if objectSchemas.isEmpty then
    -- lines 344-351: empty file or no valid objects — note: no metadata.
    { schemaUri := "http://json-schema.org/draft-07/schema#"
      typ := "object"
      properties := []
      required := []
      metadata := none }
  else
    let merged := mergeProperties use_business_types objectSchemas
    -- lines 357-362: fields present in all rows, top level only
    -- (`'.' not in field`).
    let required := (presence.filter fun p => p.2 = totalRows && !p.1.data.contains '.').map Prod.fst
    { schemaUri := "http://json-schema.org/draft-07/schema#"
      typ := "object"
      properties := merged
      required := required
      metadata := some { num_rows := totalRows, num_fields := merged.length, file_type := "jsonl" } }

/-! ### `generate_schema` (schema_generator.py lines 105-183).
The source handle after format detection/explicit selection; the columnar
(`parquet`) path needs the pyarrow collaborator and is outside these claims. -/

inductive SourceData : Type where
  | csv (headers : List String) (rows : List (List String)) : SourceData
  | jsonl (lines : List (Option JValue)) : SourceData

/-- Lines 162-173: route to the per-format generator.  The tabular route
(lines 163-166) drops `use_business_types`: `generate_csv_schema` has no such
parameter. -/
def generate_schema (src : SourceData) (sample_rows : Nat)
    (use_business_types : Bool) : SchemaDoc :=
  match src with
  | .csv headers rows => generate_csv_schema headers rows sample_rows
  | .jsonl lines => generate_jsonl_schema lines sample_rows use_business_types

/-! ### Projection helpers for theorem statements -/

/-- The string tags of a `type` / `business_type` value: the tag itself for a
scalar, the string members for a list (nested lists contribute nothing),
nothing for an absent value. -/
def TagVal.strTags : TagVal → List String
  | .pynone => []
  | .s t => [t]
  | .lst l => l.filterMap fun t => match t with | .s x => some x | _ => none

/-- The `type` value of a top-level property of a schema document
(`pynone` when the property or its `type` key is missing). -/
def docType (doc : SchemaDoc) (key : String) : TagVal :=
  ((lookupA doc.properties key).getD emptyProp).getType

/-- The `business_type` value of a top-level property. -/
def docBusiness (doc : SchemaDoc) (key : String) : TagVal :=
  ((lookupA doc.properties key).getD emptyProp).getBusiness

/-- The `type` value at a key of a bare property-map. -/
def docTypeOfMap (m : List (String × PropSchema)) (key : String) : TagVal :=
  ((lookupA m key).getD emptyProp).getType

/-- The `business_type` value at a key of a bare property-map. -/
def docBusinessOfMap (m : List (String × PropSchema)) (key : String) : TagVal :=
  ((lookupA m key).getD emptyProp).getBusiness

/-- A one-entry property-map `{key: {"type": tag}}`. -/
def propMapStr (key tag : String) : List (String × PropSchema) :=
  [(key, .mk (some (.s tag)) none none none none)]

/-- A one-entry property-map whose `type` is already a list of tags. -/
def propMapLst (key : String) (tags : List String) : List (String × PropSchema) :=
  [(key, .mk (some (.lst (tags.map .s))) none none none none)]

/-! ## Concrete scenario documents -/

/-- The tabular end-to-end scenario of claim C3: header `name,age,email`,
rows `("John",30,"john@x.com")` and `("Jane",25,"jane@x.com")`. -/
def tabularScenarioDoc : SchemaDoc :=
  generate_csv_schema ["name", "age", "email"]
    [["John", "30", "john@x.com"], ["Jane", "25", "jane@x.com"]] 100

/-- The line-delimited-JSON end-to-end scenario of claim C2: records
`{"value":"text"}`, `{"value":123}`, `{"value":45.67}`, default settings. -/
def heterogeneousScenarioDoc : SchemaDoc :=
  generate_jsonl_schema
    [some (.jobj [("value", .jstr "text")]),
     some (.jobj [("value", .jint 123)]),
     some (.jobj [("value", .jfloat "45.67")])] 100 true

/-! ## Claims -/

/-- Claim C2, counterexample.  On the three records `{"value":"text"}`,
`{"value":123}`, `{"value":45.67}` the generated `properties.value.type` is
exactly the two-tag list `["string","number"]`: it does *not* contain
`integer` (and contains no `float` either), contradicting the claim that the
list contains at least `string`, `integer` and `float`/`number`.  The `123`
record's structural tag `integer` is overridden to `number` because `"123"`
classifies as a Unix timestamp with primitive tag `number`
(jsonl_schema_generator.py lines 125-132, data_infer.py lines 134-141). -/
theorem C2_counterexample :
    docType heterogeneousScenarioDoc "value" = .lst [.s "string", .s "number"]
      ∧ "integer" ∉ (docType heterogeneousScenarioDoc "value").strTags
      ∧ "float" ∉ (docType heterogeneousScenarioDoc "value").strTags := by
  refine ⟨rfl, ?_, ?_⟩ <;> decide

/-- Claim C2, amended.  End-to-end on the line-delimited JSON records
`{"value":"text"}`, `{"value":123}`, `{"value":45.67}`:
`properties.value.type` is the duplicate-free list `["string","number"]` —
`string` from the first record and `number` from the other two, whose
classifier-inferred timestamp type overrides/matches the structural tag — and
the business type `timestamp` is attached. -/
theorem C2_amended :
    docType heterogeneousScenarioDoc "value" = .lst [.s "string", .s "number"]
      ∧ (docType heterogeneousScenarioDoc "value").strTags = ["string", "number"]
      ∧ (docType heterogeneousScenarioDoc "value").strTags.Nodup
      ∧ docBusiness heterogeneousScenarioDoc "value" = .s "timestamp" := by
  refine ⟨rfl, by decide, by decide, rfl⟩

/-- Claim C3, counterexample.  In the tabular scenario the generated
`properties.age.type` is `"number"`, not `"integer"`: both `"30"` and `"25"`
parse as floats inside the Unix-timestamp window, so the classifier returns
`('timestamp','number')` before the integer check is reached (data_infer.py
lines 134-148), refuting the claim's `properties.age.type == "integer"`
conjunct. -/
theorem C3_counterexample :
    docType tabularScenarioDoc "age" = .s "number"
      ∧ TagVal.beq (docType tabularScenarioDoc "age") (.s "integer") = false
      ∧ infer_types "30" = (some "timestamp", "number")
      ∧ infer_types "25" = (some "timestamp", "number") := by
  refine ⟨rfl, by decide, by decide, by decide⟩

/-- Claim C3, amended.  End-to-end on the tabular source with header
`name,age,email` and rows `("John",30,"john@x.com")`, `("Jane",25,"jane@x.com")`:
`properties.email.business_type` is `"email"`, `required` is exactly
`[name, age, email]`, and `properties.age.type` is `"number"` (with business
type `"timestamp"`), not `"integer"`. -/
theorem C3_amended :
    docBusiness tabularScenarioDoc "email" = .s "email"
      ∧ tabularScenarioDoc.required = ["name", "age", "email"]
      ∧ docType tabularScenarioDoc "age" = .s "number"
      ∧ docBusiness tabularScenarioDoc "age" = .s "timestamp"
      ∧ docType tabularScenarioDoc "name" = .s "string" := by
  refine ⟨rfl, by decide, rfl, rfl, rfl⟩

/-- Claim C8.  Tabular business-type unconditionality: the top-level
`generate_schema` routes a tabular source to `generate_csv_schema`, which has
no `use_business_types` parameter at all (schema_generator.py lines 163-166),
so two runs over the same tabular source with the flag `true` and `false`
produce identical schema documents. -/
theorem C8_tabular_flag_independent (headers : List String)
    (rows : List (List String)) (sampleRows : Nat) (b₁ b₂ : Bool) :
    generate_schema (.csv headers rows) sampleRows b₁
      = generate_schema (.csv headers rows) sampleRows b₂ := rfl

/-- Claim C9.  Boolean shadowing: `"0"` and `"1"` are members of the boolean
literal set checked first (data_infer.py lines 22-24), so both classify as
`(None, 'boolean')` — never as integer or timestamp — even though both parse
as numbers inside the Unix-timestamp range. -/
theorem C9_boolean_shadowing :
    infer_types "0" = (none, "boolean")
      ∧ infer_types "1" = (none, "boolean")
      ∧ isTimestampCheck "0".toList = true ∧ isTimestampCheck "1".toList = true
      ∧ pyIntOk "0".toList = true ∧ pyIntOk "1".toList = true := by
  decide

/-- Claim C7, counterexample.  A line-delimited JSON source with zero decodable
records (one undecodable line) returns the early empty schema of
jsonl_schema_generator.py lines 344-351, which carries *no* `metadata` object
at all — `num_rows`/`num_fields` are only attached on the non-empty path
(lines 372-377). -/
theorem C7_counterexample :
    (generate_jsonl_schema [none] 100 true).metadata = none
      ∧ (generate_jsonl_schema [none] 100 true).properties = []
      ∧ (generate_jsonl_schema [none] 100 true).required = [] := by
  exact ⟨rfl, rfl, rfl⟩

/-- Claim C1, counterexample.  Tabular source with a single column `c` and rows
`"hello"`, `"30"`: both values classify to non-null data types (`string` and
`number`), so the field is present in every processed record, yet `c` is not
in `required` — the multi-data-type branch of csv_schema_generator.py
lines 64-72 never appends to `required`. -/
theorem C1_counterexample :
    (infer_types "hello").2 ≠ "null"
      ∧ (infer_types "30").2 ≠ "null"
      ∧ (generate_csv_schema ["c"] [["hello"], ["30"]] 100).required = []
      ∧ docType (generate_csv_schema ["c"] [["hello"], ["30"]] 100) "c"
          = .lst [.s "string", .s "number"] := by
  refine ⟨by decide, by decide, by decide, rfl⟩

theorem pyStrip_empty : pyStrip "" = "" := rfl

/-- Claim C10.  Whitespace invariance: `infer_types` nulls out empty/whitespace
values and strips the value before every check (data_infer.py lines 16-19), so
classifying a value and classifying its stripped form give the same result;
the proof rests on the idempotence of `strip`. -/
theorem C10_whitespace_invariance (v : String) :
    infer_types (pyStrip v) = infer_types v := by
  unfold infer_types
  by_cases h1 : pyStrip v = ""
  · simp [h1, pyStrip_idem]
  · have h2 : v ≠ "" := by
      intro hv
      rw [hv, pyStrip_empty] at h1
      exact h1 rfl
    simp [h1, h2, pyStrip_idem]

/-- The disjunction of every pattern check of the `infer_types` cascade, in
source order. -/
def matchesSomeCheck (v : List Char) : Bool :=
  isBoolLit v || isUuid v || isEmail v || isUrl v || isIpv4 v || isIpv6 v
    || isMac v || isCreditCard v || isPhone v || isJsonCheck v || isCommaArray v
    || isPercentage v || isCurrency v || (dateTimeCheck v).isSome
    || isTimestampCheck v || pyIntOk v || (pyFloat v).isSome || pyDecimalOk v
    || isPostal v || isIsbn v || isBase64 v || isHexColor v

/-- The date/time check only ever produces the two fixed classifications. -/
theorem dateTimeCheck_cases (v : List Char) :
    dateTimeCheck v = none ∨ dateTimeCheck v = some (some "datetime", "datetime")
      ∨ dateTimeCheck v = some (some "date", "date") := by
  unfold dateTimeCheck
  cases dateTimeFormats.find? (fun fmt => strptimeOk fmt v) with
  | none => exact Or.inl rfl
  | some fmt =>
    by_cases hd : fmtIsDatetime fmt
    · exact Or.inr (Or.inl (by simp [hd]))
    · exact Or.inr (Or.inr (by simp [hd]))

/-- The closed set of data-type tags `infer_types` can return. -/
def dataTypeTags : List String :=
  ["null", "boolean", "string", "number", "date", "datetime", "integer",
   "float", "decimal"]

theorem mem_ite_helper {c : Prop} [Decidable c] {a b : String} {l : List String}
    (ha : a ∈ l) (hb : b ∈ l) : (if c then a else b) ∈ l := by
  split
  · exact ha
  · exact hb

set_option maxHeartbeats 1000000 in
theorem inferStripped_snd_mem (w : List Char) :
    (inferStripped w).2 ∈ dataTypeTags := by
  unfold inferStripped floatBranch
  rcases dateTimeCheck_cases w with hd | hd | hd <;> rw [hd] <;>
    simp only [apply_ite Prod.snd] <;>
    (repeat' (first | apply mem_ite_helper | decide))

/-- Claim C6.  Classifier totality: `infer_types` is a total function whose
data type is always one of the nine fixed non-empty tags, and an input whose
stripped form is non-empty and matches none of the ordered checks falls
through to `(None, "string")` (data_infer.py lines 194-195).  (Determinism is
inherent: the embedding is a pure function of its argument.) -/
theorem C6_classifier_totality (v : String) :
    ((infer_types v).2 ∈ dataTypeTags ∧ (infer_types v).2 ≠ "")
      ∧ (pyStrip v ≠ "" → matchesSomeCheck (pyStrip v).toList = false →
          infer_types v = (none, "string")) := by
  have hmem : (infer_types v).2 ∈ dataTypeTags := by
    unfold infer_types
    split
    · simp [dataTypeTags]
    · exact inferStripped_snd_mem _
  refine ⟨⟨hmem, ?_⟩, ?_⟩
  · intro h0
    rw [h0] at hmem
    simp [dataTypeTags] at hmem
  · intro hne hmatch
    have h2 : v ≠ "" := by
      intro hv
      rw [hv, pyStrip_empty] at hne
      exact hne rfl
    simp only [matchesSomeCheck, Bool.or_eq_false_iff] at hmatch
    obtain ⟨⟨⟨⟨⟨⟨⟨⟨⟨⟨⟨⟨⟨⟨⟨⟨⟨⟨⟨⟨⟨hb, hu⟩, he⟩, hur⟩, h4⟩, h6⟩, hm⟩, hc⟩,
      hp⟩, hj⟩, ha⟩, hpc⟩, hcu⟩, hdt⟩, hts⟩, hint⟩, hf⟩, hdec⟩, hpo⟩, hi⟩, hb64⟩, hhx⟩ := hmatch
    have hdt' : dateTimeCheck (pyStrip v).toList = none := by
      rcases dateTimeCheck_cases (pyStrip v).toList with h | h | h
      · exact h
      · rw [h] at hdt; simp at hdt
      · rw [h] at hdt; simp at hdt
    have hf' : pyFloat (pyStrip v).toList = none := by
      cases hpf : pyFloat (pyStrip v).toList with
      | none => rfl
      | some x => rw [hpf] at hf; simp at hf
    simp only [String.toList] at hb hu he hur h4 h6 hm hc hp hj ha hpc hcu
    simp only [String.toList] at hdt' hts hint hf' hdec hpo hi hb64 hhx
    unfold infer_types inferStripped
    simp [h2, hne, hb, hu, he, hur, h4, h6, hm, hc, hp, hj, ha,
      hpc, hcu, hdt', hts, hint, hf', hdec, hpo, hi, hb64, hhx]

/-- Claim C4, counterexample.  For the property-maps
`A = B = {v: {type:'string'}}` and `C = {v: {type:'integer'}}`,
`merge(merge(A,B),C)` gives `v.type = ['string','integer']` while
`merge(A,merge(B,C))` gives the bare scalar `'string'`: merging a scalar type
into a list that already contains it discards the rest of the list
(jsonl_schema_generator.py lines 214-216), so the two associations differ in
*content* (`integer` is present on one side and absent on the other), not
merely in list ordering. -/
theorem C4_counterexample :
    (docTypeOfMap (mergeProperties true
        [mergeProperties true [propMapStr "v" "string", propMapStr "v" "string"],
         propMapStr "v" "integer"]) "v" = .lst [.s "string", .s "integer"])
      ∧ (docTypeOfMap (mergeProperties true
          [propMapStr "v" "string",
           mergeProperties true [propMapStr "v" "string", propMapStr "v" "integer"]]) "v"
            = .s "string")
      ∧ "integer" ∈ (TagVal.lst [.s "string", .s "integer"]).strTags
      ∧ "integer" ∉ (TagVal.s "string").strTags := by
  refine ⟨rfl, rfl, by decide, by decide⟩

/-- Claim C6, witness.  `"hello world"` matches none of the ordered checks and
falls through to `(None, "string")`. -/
theorem C6_witness :
    pyStrip "hello world" ≠ ""
      ∧ matchesSomeCheck (pyStrip "hello world").toList = false
      ∧ infer_types "hello world" = (none, "string") :=
  ⟨by decide, by decide,
    (C6_classifier_totality "hello world").2 (by decide) (by decide)⟩

/-! ## Dict lemmas for the merge-fold theorem (C4 amended) -/

/-- The keys of an insertion-ordered dict model are duplicate-free. -/
def nodupKeys {α : Type} (m : List (String × α)) : Prop :=
  (m.map Prod.fst).Nodup

theorem map_fst_updateA {α : Type} (m : List (String × α)) (k : String) (v : α) :
    (updateA m k v).map Prod.fst = m.map Prod.fst := by
  induction m with
  | nil => rfl
  | cons p rest ih =>
    by_cases h : p.1 = k
    · simp [updateA, h]
    · simpa [updateA, h] using ih

theorem lookupA_eq_none_iff {α : Type} (m : List (String × α)) (k : String) :
    lookupA m k = none ↔ k ∉ m.map Prod.fst := by
  induction m with
  | nil => simp [lookupA]
  | cons p rest ih =>
    by_cases h : p.1 = k
    · simp [lookupA, List.find?, h]
    · simpa [lookupA, List.find?, h, Ne.symm h] using ih

theorem lookupA_append_none {α : Type} (a b : List (String × α)) (k : String)
    (ha : lookupA a k = none) : lookupA (a ++ b) k = lookupA b k := by
  induction a with
  | nil => simp
  | cons p rest ih =>
    by_cases h : p.1 = k
    · simp [lookupA, List.find?, h] at ha
    · have ha' : lookupA rest k = none := by
        simpa [lookupA, List.find?, h] using ha
      simpa [lookupA, List.find?, h] using ih ha'

theorem mergeDict_nodupKeys (ubt : Bool) (m : List (String × PropSchema)) :
    ∀ acc, nodupKeys acc → nodupKeys (mergeDict ubt acc m) := by
  induction m with
  | nil => intro acc h; simpa [mergeDict] using h
  | cons p rest ih =>
    intro acc h
    unfold mergeDict
    cases hl : lookupA acc p.1 with
    | some e =>
      exact ih _ (by simpa [nodupKeys, map_fst_updateA] using h)
    | none =>
      apply ih
      have hk : p.1 ∉ acc.map Prod.fst := (lookupA_eq_none_iff _ _).1 hl
      unfold nodupKeys at h ⊢
      rw [List.map_append]
      refine List.Nodup.append h (by simp) ?_
      intro a ha hb
      simp at hb
      exact hk (hb ▸ ha)

theorem mergeDict_disjoint_append (ubt : Bool) (m : List (String × PropSchema))
    (hm : nodupKeys m) :
    ∀ acc, (∀ k ∈ m.map Prod.fst, lookupA acc k = none) →
      mergeDict ubt acc m = acc ++ m := by
  induction m with
  | nil => intro acc _; simp [mergeDict]
  | cons p rest ih =>
    intro acc hdisj
    unfold mergeDict
    rw [hdisj p.1 (by simp)]
    have hrest : nodupKeys rest := by
      simpa [nodupKeys] using (List.nodup_cons.mp hm).2
    have hknotrest : p.1 ∉ rest.map Prod.fst := by
      simpa [nodupKeys] using (List.nodup_cons.mp hm).1
    rw [ih hrest (acc ++ [p]) ?_]
    · simp
    · intro k hk
      have h1 : lookupA acc k = none := hdisj k (by simp [hk])
      rw [lookupA_append_none _ _ _ h1]
      have : p.1 ≠ k := fun he => hknotrest (he ▸ hk)
      simp [lookupA, List.find?, this]

/-- Merging a duplicate-free property dict into the empty accumulator copies
it verbatim (lines 160-162 of `_merge_properties`). -/
theorem mergeDict_nil_eq (ubt : Bool) (m : List (String × PropSchema))
    (hm : nodupKeys m) : mergeDict ubt [] m = m := by
  have := mergeDict_disjoint_append ubt m hm [] (by intro k _; rfl)
  simpa using this

/-- Claim C4, amended.  The N-ary merge is the left-to-right pairwise fold:
`_merge_properties([A,B,C])` equals
`_merge_properties([_merge_properties([A,B]), C])` for every three
property-maps (so batching the fold on the left is sound).  Full
associativity `merge(merge(A,B),C) = merge(A,merge(B,C))` fails — even up to
list ordering — because merging a scalar type into a list that already
contains it discards the remaining list members (see the counterexample). -/
theorem C4_amended (ubt : Bool) (A B C : List (String × PropSchema)) :
    mergeProperties ubt [mergeProperties ubt [A, B], C]
      = mergeProperties ubt [A, B, C] := by
  show mergeDict ubt (mergeDict ubt [] (mergeDict ubt (mergeDict ubt [] A) B)) C
    = mergeDict ubt (mergeDict ubt (mergeDict ubt [] A) B) C
  rw [mergeDict_nil_eq ubt _ (mergeDict_nodupKeys ubt B _
    (mergeDict_nodupKeys ubt A [] (by simp [nodupKeys])))]

/-- Merging two single-key property dicts reduces to one entry merge
(`_merge_properties` lines 157-165). -/
theorem mergeProperties_two_singleton (ubt : Bool) (k : String) (p q : PropSchema) :
    mergeProperties ubt [[(k, p)], [(k, q)]] = [(k, mergeEntry ubt p q)] := by
  simp [mergeProperties, mergeDict, lookupA, List.find?, updateA]

theorem docTypeOfMap_singleton (k : String) (p : PropSchema) :
    docTypeOfMap [(k, p)] k = p.getType := by
  simp [docTypeOfMap, lookupA, List.find?]

/-- Claim C5, amended.  The type-union step of the merger (lines 210-219,
reached whenever the branch is neither object/object nor array/array) behaves
as follows on the `type` values of an entry present in both maps:
scalar+scalar yields the 2-element list; list-existing + scalar appends the
scalar when absent and leaves the list unchanged when present;
scalar-existing + list *appends the scalar to the incoming list when absent*
but **collapses to the bare existing scalar** (discarding the incoming list)
when the scalar is already a member; and list+list appends the entire
incoming list as one (nested) element when it is not itself a member — not
the element-wise set union the claim describes.  `business_type` values go
through the structurally identical union of lines 222-237; the scalar+scalar
business case is included. -/
theorem C5_amended (e : PropSchema) (a b ba bb : String) (el vl : List TagVal) :
    (a ≠ b → mergeTypeVals e (.s a) (.s b) = e.setType (.lst [.s a, .s b]))
    ∧ (TagVal.mem (.s b) el = false →
        mergeTypeVals e (.lst el) (.s b) = e.setType (.lst (el ++ [.s b])))
    ∧ (TagVal.mem (.s b) el = true → mergeTypeVals e (.lst el) (.s b) = e)
    ∧ (TagVal.mem (.s a) vl = true → mergeTypeVals e (.s a) (.lst vl) = e)
    ∧ (TagVal.mem (.s a) vl = false →
        mergeTypeVals e (.s a) (.lst vl) = e.setType (.lst (vl ++ [.s a])))
    ∧ (TagVal.beq (.lst el) (.lst vl) = false → TagVal.mem (.lst vl) el = false →
        mergeTypeVals e (.lst el) (.lst vl) = e.setType (.lst (el ++ [.lst vl])))
    ∧ (ba ≠ bb → ba ≠ "" → bb ≠ "" →
        mergeBusinessVals e (.s ba) (.s bb) = e.setBusiness (.lst [.s ba, .s bb])) := by
  refine ⟨?_, ?_, ?_, ?_, ?_, ?_, ?_⟩
  · intro hab
    simp [mergeTypeVals, TagVal.beq, hab]
  · intro h
    simp [mergeTypeVals, TagVal.beq, h]
  · intro h
    simp [mergeTypeVals, TagVal.beq, h]
  · intro h
    simp [mergeTypeVals, TagVal.beq, h]
  · intro h
    simp [mergeTypeVals, TagVal.beq, h]
  · intro hne h
    simp only [TagVal.beq] at hne
    simp [mergeTypeVals, TagVal.beq, hne, h]
  · intro hab h1 h2
    simp [mergeBusinessVals, TagVal.beq, TagVal.truthy, hab, h1, h2]

/-- Claim C5, witness.  Concrete instances of each branch of the amended
statement. -/
theorem C5_amended_witness :
    mergeTypeVals emptyProp (.s "string") (.s "integer")
        = emptyProp.setType (.lst [.s "string", .s "integer"])
      ∧ mergeTypeVals emptyProp (.lst [.s "string"]) (.s "integer")
        = emptyProp.setType (.lst [.s "string", .s "integer"])
      ∧ mergeTypeVals emptyProp (.s "string") (.lst [.s "string", .s "integer"])
        = emptyProp
      ∧ mergeBusinessVals emptyProp (.s "email") (.s "uuid")
        = emptyProp.setBusiness (.lst [.s "email", .s "uuid"]) := by
  have h := C5_amended emptyProp "string" "integer" "email" "uuid"
    [.s "string"] [.s "string", .s "integer"]
  exact ⟨h.1 (by decide), h.2.1 (by decide),
    h.2.2.2.1 (by decide), h.2.2.2.2.2.2 (by decide) (by decide) (by decide)⟩

/-! ## Specification-side view of the JSONL scan (claims C1, C7).
`decodedRecs` lists the JSON values the per-line loop decodes before the
`row_count >= sample_rows` cap stops it (`row_count` steps only on object
records); `objFields` extracts the field lists of the object records among
them. -/

def decodedRecs : List (Option JValue) → Nat → Nat → List JValue
  | [], _, _ => []
  | line :: rest, sampleRows, rowCount =>
    if sampleRows ≤ rowCount then []
    else
      match line with
      | none => decodedRecs rest sampleRows rowCount
      | some v =>
        v :: decodedRecs rest sampleRows
          (match v with | .jobj _ => rowCount + 1 | _ => rowCount)

def objFields (vs : List JValue) : List (List (String × JValue)) :=
  vs.filterMap fun v => match v with | .jobj fields => some fields | _ => none

theorem jsonlScan_total (ubt : Bool) (n : Nat) (lines : List (Option JValue)) :
    ∀ rc total presence schemas,
      (jsonlScan ubt n lines rc total presence schemas).1
        = total + (decodedRecs lines n rc).length := by
  induction lines with
  | nil => intro rc total presence schemas; simp [jsonlScan, decodedRecs]
  | cons line rest ih =>
    intro rc total presence schemas
    unfold jsonlScan decodedRecs
    by_cases hcap : n ≤ rc
    · simp [hcap]
    · cases line with
      | none => simp [hcap, ih]
      | some v =>
        cases v <;> simp [hcap, ih] <;> omega

theorem jsonlScan_schemas (ubt : Bool) (n : Nat) (lines : List (Option JValue)) :
    ∀ rc total presence schemas,
      (jsonlScan ubt n lines rc total presence schemas).2.2
        = schemas ++ (objFields (decodedRecs lines n rc)).map
            (fun fs => processNestedObj fs "" n ubt) := by
  induction lines with
  | nil => intro rc total presence schemas; simp [jsonlScan, decodedRecs, objFields]
  | cons line rest ih =>
    intro rc total presence schemas
    unfold jsonlScan decodedRecs
    by_cases hcap : n ≤ rc
    · simp [hcap, objFields]
    · cases line with
      | none => simp [hcap, ih]
      | some v =>
        cases v <;> simp [hcap, ih, objFields]

theorem jsonlScan_presence (ubt : Bool) (n : Nat) (lines : List (Option JValue)) :
    ∀ rc total presence schemas,
      (jsonlScan ubt n lines rc total presence schemas).2.1
        = (objFields (decodedRecs lines n rc)).foldl
            (fun p fs => (trackKeys fs "").foldl bumpA p) presence := by
  induction lines with
  | nil => intro rc total presence schemas; simp [jsonlScan, decodedRecs, objFields]
  | cons line rest ih =>
    intro rc total presence schemas
    unfold jsonlScan decodedRecs
    by_cases hcap : n ≤ rc
    · simp [hcap, objFields]
    · cases line with
      | none => simp [hcap, ih]
      | some v =>
        cases v <;> simp [hcap, ih, objFields]

/-- Claim C7, amended.  For a line-delimited JSON source in which at least one
processed line decodes to an object, the returned schema carries a `metadata`
object whose `num_rows` is the number of records actually decoded (the raw
line count plays no role: blank and undecodable lines are skipped) and whose
`num_fields` is the number of generated top-level properties.  When no
processed line decodes to an object the early return of lines 344-351 carries
no metadata at all (see the counterexample). -/
theorem C7_amended (lines : List (Option JValue)) (n : Nat) (ubt : Bool)
    (hobj : objFields (decodedRecs lines n 0) ≠ []) :
    ∃ m, (generate_jsonl_schema lines n ubt).metadata = some m
      ∧ m.num_rows = (decodedRecs lines n 0).length
      ∧ m.num_fields = (generate_jsonl_schema lines n ubt).properties.length
      ∧ m.file_type = "jsonl" := by
  unfold generate_jsonl_schema
  have hsch := jsonlScan_schemas ubt n lines 0 0 [] []
  have htot := jsonlScan_total ubt n lines 0 0 [] []
  rw [List.nil_append] at hsch
  have hne : ((jsonlScan ubt n lines 0 0 [] []).2.2).isEmpty = false := by
    rw [hsch]
    simpa [List.isEmpty_iff] using hobj
  simp only [hne, Bool.false_eq_true, if_false, htot]
  exact ⟨_, rfl, by simp, rfl, rfl⟩

/-- Claim C7, witness.  A one-record source. -/
theorem C7_amended_witness :
    objFields (decodedRecs [some (.jobj [("a", .jnull)])] 100 0) ≠ []
      ∧ ∃ m, (generate_jsonl_schema [some (.jobj [("a", .jnull)])] 100 true).metadata = some m
          ∧ m.num_rows = (decodedRecs [some (.jobj [("a", .jnull)])] 100 0).length
          ∧ m.num_fields
              = (generate_jsonl_schema [some (.jobj [("a", .jnull)])] 100 true).properties.length
          ∧ m.file_type = "jsonl" := by
  constructor
  · intro h
    simp [decodedRecs, objFields] at h
  · exact C7_amended [some (.jobj [("a", .jnull)])] 100 true
      (by intro h; simp [decodedRecs, objFields] at h)

/-! ## CSV required-field characterization (claim C1, tabular half) -/

/-- The data-type classifications of one column over the sampled rows (the
`DictReader` cell for header `h` sits at `h`'s position in the header list;
a missing cell classifies as null like the `''` default). -/
def colClasses (headers : List String) (rows : List (List String)) (n : Nat)
    (h : String) : List String :=
  (rows.take n).map fun row => (infer_types (row.getD (headers.indexOf h) "")).2

theorem lookupA_updateA_self {α : Type} (m : List (String × α)) (k : String)
    (v s : α) (hs : lookupA m k = some s) :
    lookupA (updateA m k v) k = some v := by
  induction m with
  | nil => simp [lookupA] at hs
  | cons p rest ih =>
    by_cases hk : p.1 = k
    · simp [updateA, hk, lookupA, List.find?]
    · have hs' : lookupA rest k = some s := by
        simpa [lookupA, List.find?, hk] using hs
      simpa [updateA, hk, lookupA, List.find?] using ih hs'

theorem lookupA_updateA_ne {α : Type} (m : List (String × α)) (k k' : String)
    (v : α) (hne : k' ≠ k) :
    lookupA (updateA m k v) k' = lookupA m k' := by
  induction m with
  | nil => rfl
  | cons p rest ih =>
    by_cases hk : p.1 = k
    · have hp : ¬ p.1 = k' := fun he => hne (he ▸ hk)
      have hkk : ¬ k = k' := fun he => hne he.symm
      simp [updateA, hk, lookupA, List.find?, hp, hkk]
    · by_cases hk' : p.1 = k'
      · simp [updateA, hk, lookupA, List.find?, hk', hne]
      · simpa [updateA, hk, lookupA, List.find?, hk'] using ih

theorem contains_mem_iff (s : List String) (x : String) :
    s.contains x = true ↔ x ∈ s := List.elem_iff

theorem setAdd_eq_of_mem {s : List String} {x : String} (hx : x ∈ s) :
    setAdd s x = s := by
  unfold setAdd
  rw [if_pos ((contains_mem_iff s x).mpr hx)]

theorem setAdd_eq_of_not_mem {s : List String} {x : String} (hx : x ∉ s) :
    setAdd s x = s ++ [x] := by
  unfold setAdd
  rw [if_neg (fun h => hx ((contains_mem_iff s x).mp h))]

theorem mem_setAdd (s : List String) (x y : String) :
    y ∈ setAdd s x ↔ y ∈ s ∨ y = x := by
  by_cases hx : x ∈ s
  · rw [setAdd_eq_of_mem hx]
    constructor
    · exact Or.inl
    · rintro (hy | rfl)
      · exact hy
      · exact hx
  · rw [setAdd_eq_of_not_mem hx]
    simp

theorem setAdd_nodup (s : List String) (x : String) (h : s.Nodup) :
    (setAdd s x).Nodup := by
  by_cases hx : x ∈ s
  · rw [setAdd_eq_of_mem hx]; exact h
  · rw [setAdd_eq_of_not_mem hx]
    refine List.Nodup.append h (by simp) ?_
    intro a ha hb
    simp at hb
    exact hx (hb ▸ ha)

theorem foldl_setAdd_mem (ds : List String) :
    ∀ (s : List String) (y : String), y ∈ ds.foldl setAdd s ↔ y ∈ s ∨ y ∈ ds := by
  induction ds with
  | nil => intro s y; simp
  | cons d rest ih =>
    intro s y
    rw [List.foldl_cons, ih, mem_setAdd]
    simp only [List.mem_cons]
    tauto

theorem foldl_setAdd_nodup (ds : List String) :
    ∀ (s : List String), s.Nodup → (ds.foldl setAdd s).Nodup := by
  induction ds with
  | nil => intro s h; simpa
  | cons d rest ih => intro s h; exact ih _ (setAdd_nodup s d h)

theorem setAdd_ne_nil_of_ne_nil (s : List String) (x : String) (h : s ≠ []) :
    setAdd s x ≠ [] := by
  by_cases hx : x ∈ s
  · rw [setAdd_eq_of_mem hx]; exact h
  · rw [setAdd_eq_of_not_mem hx]; simp

theorem foldl_setAdd_ne_nil (ds : List String) :
    ∀ (s : List String), s ≠ [] → ds.foldl setAdd s ≠ [] := by
  induction ds with
  | nil => intro s h; simpa
  | cons d rest ih =>
    intro s h
    exact ih _ (setAdd_ne_nil_of_ne_nil s d h)

theorem foldl_setAdd_nil_iff (ds : List String) :
    ds.foldl setAdd [] = [] ↔ ds = [] := by
  cases ds with
  | nil => simp
  | cons d rest =>
    constructor
    · intro h
      exact absurd h (by
        rw [List.foldl_cons]
        exact foldl_setAdd_ne_nil rest _ (by
          rw [setAdd_eq_of_not_mem (by simp)]
          simp))
    · intro h; cases h

/-- A fold of cell steps over header positions that never touch `h` leaves
`h`'s data-type set unchanged. -/
theorem csvRow_fold_ne (row : List String) (h : String) :
    ∀ (ps : List (Nat × String))
      (acc : List (String × List String) × List (String × List String)),
      (∀ q ∈ ps, q.2 ≠ h) →
      lookupA ((ps.foldl (csvCellStep row) acc).2) h = lookupA acc.2 h := by
  intro ps
  induction ps with
  | nil => intro acc _; rfl
  | cons q rest ih =>
    intro acc hne
    rw [List.foldl_cons, ih _ (fun q' hq' => hne q' (List.mem_cons_of_mem _ hq'))]
    have hq : q.2 ≠ h := hne q (List.mem_cons_self _ _)
    unfold csvCellStep
    exact lookupA_updateA_ne _ _ _ _ (Ne.symm hq)

theorem snd_mem_of_mem_enumFrom {α : Type} (l : List α) :
    ∀ (j : Nat) (q : Nat × α), q ∈ List.enumFrom j l → q.2 ∈ l := by
  induction l with
  | nil => intro j q hq; simp [List.enumFrom] at hq
  | cons a rest ih =>
    intro j q hq
    rw [List.enumFrom] at hq
    rcases List.mem_cons.mp hq with h | h
    · subst h; simp
    · exact List.mem_cons_of_mem _ (ih (j + 1) q h)

/-- The per-row loop applies exactly one `setAdd` of the classified cell to
`h`'s data-type set when the headers are distinct. -/
theorem csvRow_lookup (row : List String) (h : String) :
    ∀ (headers : List String), headers.Nodup → h ∈ headers →
    ∀ (j : Nat) (acc : List (String × List String) × List (String × List String))
      (sD : List String), lookupA acc.2 h = some sD →
      lookupA (((List.enumFrom j headers).foldl (csvCellStep row) acc).2) h
        = some (setAdd sD (infer_types (row.getD (j + headers.indexOf h) "")).2) := by
  intro headers
  induction headers with
  | nil => intro _ hm; cases hm
  | cons hd tl ih =>
    intro hnd hm j acc sD hs
    rw [List.enumFrom, List.foldl_cons]
    by_cases hh : hd = h
    · subst hh
      have htl : hd ∉ tl := (List.nodup_cons.mp hnd).1
      rw [csvRow_fold_ne row hd (List.enumFrom (j + 1) tl) _
        (fun q hq he => htl (he ▸ snd_mem_of_mem_enumFrom tl (j + 1) q hq))]
      unfold csvCellStep
      rw [lookupA_updateA_self _ _ _ _ hs]
      rw [hs]
      simp [List.indexOf_cons_self]
    · have hm' : h ∈ tl := by
        rcases List.mem_cons.mp hm with he | he
        · exact absurd he.symm hh
        · exact he
      have hstep : lookupA ((csvCellStep row acc (j, hd)).2) h = some sD := by
        unfold csvCellStep
        rw [lookupA_updateA_ne _ _ _ _ (Ne.symm hh), hs]
      rw [ih (List.nodup_cons.mp hnd).2 hm' (j + 1) _ sD hstep]
      have hidx : (hd :: tl).indexOf h = tl.indexOf h + 1 := by
        simp [List.indexOf_cons_ne _ hh]
      rw [hidx, show j + (tl.indexOf h + 1) = j + 1 + tl.indexOf h from by omega]

/-- The whole sampled-row scan accumulates, for each distinct header, exactly
the first-seen-deduplicated classifications of its column. -/
theorem csvScan_lookup (headers : List String) (h : String)
    (hnd : headers.Nodup) (hm : h ∈ headers) :
    ∀ (rs : List (List String))
      (acc : List (String × List String) × List (String × List String))
      (sD : List String), lookupA acc.2 h = some sD →
      lookupA ((rs.foldl (fun acc row => csvProcessRow headers row acc) acc).2) h
        = some (rs.foldl
            (fun s row => setAdd s (infer_types (row.getD (headers.indexOf h) "")).2) sD) := by
  intro rs
  induction rs with
  | nil => intro acc sD hs; simpa using hs
  | cons r rest ih =>
    intro acc sD hs
    rw [List.foldl_cons, List.foldl_cons]
    apply ih
    have := csvRow_lookup r h headers hnd hm 0 acc sD hs
    simpa [csvProcessRow, List.enum] using this

theorem lookupA_const_init (headers : List String) (h : String) (hm : h ∈ headers) :
    lookupA (headers.map fun x => (x, ([] : List String))) h = some [] := by
  induction headers with
  | nil => cases hm
  | cons hd tl ih =>
    by_cases hh : hd = h
    · simp [lookupA, List.find?, hh]
    · have hm' : h ∈ tl := by
        rcases List.mem_cons.mp hm with he | he
        · exact absurd he.symm hh
        · exact he
      simpa [lookupA, List.find?, hh] using ih hm'

/-- The schema-building loop appends to `required` exactly the headers whose
finalize step flags them (lines 37-81). -/
theorem csvBuild_required (bt dt : List (String × List String)) :
    ∀ (hs : List String) (acc : List (String × PropSchema) × List String),
      (hs.foldl (csvBuildStep bt dt) acc).2
        = acc.2 ++ hs.filter
            (fun h => (csvFinalizeColumn h ((lookupA bt h).getD [])
              ((lookupA dt h).getD [])).2) := by
  intro hs
  induction hs with
  | nil => intro acc; simp
  | cons hd tl ih =>
    intro acc
    rw [List.foldl_cons, ih, List.filter_cons]
    by_cases hc : (csvFinalizeColumn hd ((lookupA bt hd).getD [])
        ((lookupA dt hd).getD [])).2
    · simp [csvBuildStep, hc]
    · simp [csvBuildStep, hc]

/-- The finalize branch marks a column required iff its classifications are
nonempty and all equal to a single non-null data type. -/
theorem csvColumnRequired_iff (ds : List String) :
    (csvColumnRequired (ds.foldl setAdd []) = true)
      ↔ (ds ≠ [] ∧ ∃ t, t ≠ "null" ∧ ∀ d ∈ ds, d = t) := by
  have hsnodup : (ds.foldl setAdd []).Nodup := foldl_setAdd_nodup ds [] (by simp)
  have hsmem : ∀ y, y ∈ ds.foldl setAdd [] ↔ y ∈ ds := by
    intro y
    rw [foldl_setAdd_mem]
    simp
  constructor
  · intro hreq
    unfold csvColumnRequired at hreq
    rcases hflt : (ds.foldl setAdd []).filter (fun t => decide (t ≠ "null"))
      with _ | ⟨t, _ | _⟩
    · rw [hflt] at hreq
      simp at hreq
    · rw [hflt] at hreq
      simp only [Bool.not_eq_true'] at hreq
      have hnulm : "null" ∉ ds.foldl setAdd [] := by
        intro hmm
        rw [(contains_mem_iff _ _).mpr hmm] at hreq
        cases hreq
      have hfeq : (ds.foldl setAdd []).filter (fun t => decide (t ≠ "null"))
          = ds.foldl setAdd [] := by
        apply List.filter_eq_self.mpr
        intro a ha
        simpa using fun (he : a = "null") => hnulm (he ▸ ha)
      have hS : ds.foldl setAdd [] = [t] := by rw [← hfeq, hflt]
      have hdsne : ds ≠ [] := by
        intro hds
        rw [hds] at hS
        simp at hS
      refine ⟨hdsne, t, ?_, ?_⟩
      · intro he
        apply hnulm
        rw [hS, he]
        simp
      · intro d hd
        have : d ∈ ds.foldl setAdd [] := (hsmem d).mpr hd
        rw [hS] at this
        simpa using this
    · rw [hflt] at hreq
      simp at hreq
  · rintro ⟨hdsne, t, htnull, hall⟩
    have hS : ds.foldl setAdd [] = [t] := by
      rcases hSs : ds.foldl setAdd [] with _ | ⟨x, S'⟩
      · exact absurd ((foldl_setAdd_nil_iff ds).mp hSs) hdsne
      · have hx : x = t := hall x ((hsmem x).mp (by rw [hSs]; simp))
        subst hx
        rcases hS's : S' with _ | ⟨y, S''⟩
        · rfl
        · have hy : y = x := hall y ((hsmem y).mp (by rw [hSs, hS's]; simp))
          rw [hSs, hS's, hy] at hsnodup
          simp at hsnodup
    unfold csvColumnRequired
    rw [hS]
    have h1 : ([t].filter fun tt => decide (tt ≠ "null")) = [t] := by simp [htnull]
    rw [h1]
    have h2 : ([t].contains "null") = false := by
      rw [← Bool.not_eq_true, contains_mem_iff]
      simp
      exact fun he => htnull he.symm
    rw [h2]
    rfl

theorem csvFinalizeColumn_snd (header : String) (bts dts : List String) :
    (csvFinalizeColumn header bts dts).2 = csvColumnRequired dts := rfl

/-- Tabular `required` characterization: with distinct headers, a column is
required iff its sampled classifications are nonempty and all equal to one
non-null data type. -/
theorem csv_required_iff (headers : List String) (rows : List (List String))
    (n : Nat) (h : String) (hnd : headers.Nodup) :
    h ∈ (generate_csv_schema headers rows n).required
      ↔ h ∈ headers ∧ colClasses headers rows n h ≠ []
          ∧ ∃ t, t ≠ "null" ∧ ∀ d ∈ colClasses headers rows n h, d = t := by
  unfold generate_csv_schema
  simp only [csvBuild_required, List.nil_append, List.mem_filter,
    csvFinalizeColumn_snd]
  constructor
  · rintro ⟨hmem, hpred⟩
    refine ⟨hmem, ?_⟩
    have hscan := csvScan_lookup headers h hnd hmem (rows.take n)
      (headers.map fun hh => (hh, []), headers.map fun hh => (hh, []))
      [] (lookupA_const_init headers h hmem)
    rw [hscan] at hpred
    simp only [Option.getD_some] at hpred
    have hbr : (colClasses headers rows n h).foldl setAdd []
        = (rows.take n).foldl
            (fun s row => setAdd s (infer_types (row.getD (headers.indexOf h) "")).2) [] := by
      unfold colClasses
      exact List.foldl_map _ _ _ _
    rw [← hbr] at hpred
    exact (csvColumnRequired_iff _).mp hpred
  · rintro ⟨hmem, hcls⟩
    refine ⟨hmem, ?_⟩
    have hscan := csvScan_lookup headers h hnd hmem (rows.take n)
      (headers.map fun hh => (hh, []), headers.map fun hh => (hh, []))
      [] (lookupA_const_init headers h hmem)
    rw [hscan]
    simp only [Option.getD_some]
    have hbr : (colClasses headers rows n h).foldl setAdd []
        = (rows.take n).foldl
            (fun s row => setAdd s (infer_types (row.getD (headers.indexOf h) "")).2) [] := by
      unfold colClasses
      exact List.foldl_map _ _ _ _
    rw [← hbr]
    exact (csvColumnRequired_iff _).mpr hcls

/-! ## JSONL presence-count lemmas (claim C1, line-delimited half) -/

/-- The presence count of a key (`all_field_presence.get(k, 0)`). -/
def pcount (m : List (String × Nat)) (k : String) : Nat :=
  (lookupA m k).getD 0

theorem lookupA_append_some {α : Type} (a b : List (String × α)) (k : String)
    (v : α) (ha : lookupA a k = some v) : lookupA (a ++ b) k = some v := by
  induction a with
  | nil => simp [lookupA] at ha
  | cons p rest ih =>
    by_cases hk : p.1 = k
    · simp only [lookupA, List.find?, hk, decide_eq_true_eq] at ha ⊢
      simpa [List.find?_cons_of_pos, hk] using ha
    · have ha' : lookupA rest k = some v := by
        simpa [lookupA, List.find?, hk] using ha
      simpa [lookupA, List.find?, hk] using ih ha'

theorem pcount_bumpA (m : List (String × Nat)) (k' k : String) :
    pcount (bumpA m k') k = pcount m k + (if k' = k then 1 else 0) := by
  by_cases hk : k' = k
  · subst hk
    unfold bumpA pcount
    cases hl : lookupA m k' with
    | some c =>
      rw [lookupA_updateA_self _ _ _ _ hl]
      simp
    | none =>
      rw [lookupA_append_none _ _ _ hl]
      simp [lookupA, List.find?]
  · unfold bumpA pcount
    cases hl : lookupA m k' with
    | some c =>
      rw [lookupA_updateA_ne _ _ _ _ (Ne.symm hk)]
      simp [hk]
    | none =>
      cases hlk : lookupA m k with
      | some c =>
        rw [lookupA_append_some _ _ _ _ hlk]
        simp [hk]
      | none =>
        rw [lookupA_append_none _ _ _ hlk]
        simp [lookupA, List.find?, hk]

theorem pcount_foldl_bumpA (ks : List String) :
    ∀ (m : List (String × Nat)) (k : String),
      pcount (ks.foldl bumpA m) k = pcount m k + ks.count k := by
  induction ks with
  | nil => intro m k; simp
  | cons k' rest ih =>
    intro m k
    rw [List.foldl_cons, ih, pcount_bumpA, List.count_cons]
    by_cases h : k' = k
    · subst h
      simp
      omega
    · have h2 : (k == k') = false := by
        simp only [beq_eq_false_iff_ne, ne_eq]
        exact fun he => h he.symm
      simp [h, h2]

theorem keys_bumpA (m : List (String × Nat)) (k' k : String) :
    k ∈ (bumpA m k').map Prod.fst ↔ k ∈ m.map Prod.fst ∨ k = k' := by
  unfold bumpA
  cases hl : lookupA m k' with
  | some c =>
    rw [map_fst_updateA]
    constructor
    · exact Or.inl
    · rintro (hy | rfl)
      · exact hy
      · have hne : lookupA m k ≠ none := by
          rw [hl]
          simp
        by_contra hcon
        exact hne ((lookupA_eq_none_iff m k).mpr hcon)
  | none => simp [List.map_append]

theorem keys_foldl_bumpA (ks : List String) :
    ∀ (m : List (String × Nat)) (k : String),
      k ∈ (ks.foldl bumpA m).map Prod.fst ↔ k ∈ m.map Prod.fst ∨ k ∈ ks := by
  induction ks with
  | nil => intro m k; simp
  | cons k' rest ih =>
    intro m k
    rw [List.foldl_cons, ih, keys_bumpA]
    simp only [List.mem_cons]
    tauto

theorem nodupKeys_bumpA (m : List (String × Nat)) (k' : String)
    (h : nodupKeys m) : nodupKeys (bumpA m k') := by
  unfold bumpA
  cases hl : lookupA m k' with
  | some c =>
    unfold nodupKeys at h ⊢
    rw [map_fst_updateA]
    exact h
  | none =>
    unfold nodupKeys at h ⊢
    rw [List.map_append]
    refine List.Nodup.append h (by simp) ?_
    intro a ha hb
    simp at hb
    rw [hb] at ha
    exact absurd ((lookupA_eq_none_iff m k').mp hl) (by simpa using ha)

theorem nodupKeys_foldl_bumpA (ks : List String) :
    ∀ (m : List (String × Nat)), nodupKeys m → nodupKeys (ks.foldl bumpA m) := by
  induction ks with
  | nil => intro m h; simpa
  | cons k' rest ih => intro m h; exact ih _ (nodupKeys_bumpA m k' h)

theorem mem_iff_lookupA {α : Type} (m : List (String × α)) (hnd : nodupKeys m)
    (k : String) (v : α) : (k, v) ∈ m ↔ lookupA m k = some v := by
  induction m with
  | nil => simp [lookupA]
  | cons p rest ih =>
    have hnd2 : (p.1 :: rest.map Prod.fst).Nodup := by
      unfold nodupKeys at hnd
      simpa [List.map_cons] using hnd
    have hnd' : nodupKeys rest := (List.nodup_cons.mp hnd2).2
    have hp : p.1 ∉ rest.map Prod.fst := (List.nodup_cons.mp hnd2).1
    by_cases hk : p.1 = k
    · subst hk
      constructor
      · intro hm
        rcases List.mem_cons.mp hm with he | he
        · have hv : v = p.2 := congrArg Prod.snd he
          simp [lookupA, List.find?, hv]
        · exact absurd (by simpa using List.mem_map_of_mem Prod.fst he) hp
      · intro hl
        have hv : p.2 = v := by
          simpa [lookupA, List.find?] using hl
        rw [← hv]
        exact List.mem_cons_self _ _
    · constructor
      · intro hm
        rcases List.mem_cons.mp hm with he | he
        · exact absurd (congrArg Prod.fst he).symm hk
        · simpa [lookupA, List.find?, hk] using (ih hnd').mp he
      · intro hl
        exact List.mem_cons_of_mem _ ((ih hnd').mpr
          (by simpa [lookupA, List.find?, hk] using hl))

/-- Claim C5, counterexample.  The union is not the flat tag-list the claim
describes.  Merging `{v: {type: 'string'}}` with
`{v: {type: ['string','integer']}}` does not keep the incoming list: because
the existing scalar is a member of it, lines 214-216 leave the bare scalar
`'string'` and the tag `'integer'` is lost.  And merging
`{v: {type: ['a','b']}}` with `{v: {type: ['b','c']}}` appends the whole
incoming list as one nested element instead of taking the element-wise set
union `['a','b','c']`. -/
theorem C5_counterexample :
    docTypeOfMap (mergeProperties true
        [[("v", emptyProp.setType (.s "string"))],
         [("v", emptyProp.setType (.lst [.s "string", .s "integer"]))]]) "v"
      = .s "string"
    ∧ docTypeOfMap (mergeProperties true
        [[("v", emptyProp.setType (.lst [.s "a", .s "b"]))],
         [("v", emptyProp.setType (.lst [.s "b", .s "c"]))]]) "v"
      = .lst [.s "a", .s "b", .lst [.s "b", .s "c"]] := by
  exact ⟨rfl, rfl⟩

/-! ## JSONL required-field characterization (claim C1, line-delimited half) -/

/-- Data of the literal path separator. -/
theorem dot_data : ("." : String).data = ['.'] := rfl

/-- Data of the literal list-path suffix. -/
theorem brackets_data : ("[]" : String).data = ['[', ']'] := rfl

/-- Membership form of `List.contains` on characters. -/
theorem contains_char_iff (l : List Char) (c : Char) : l.contains c = true ↔ c ∈ l :=
  List.elem_iff

mutual
/-- Under a nonempty path prefix every key `track_fields` emits is dotted. -/
theorem trackKeys_dot : ∀ (fields : List (String × JValue)) (pre : String),
    pre.data ≠ [] → ∀ k ∈ trackKeys fields pre, k.data.contains '.' = true
  | [], _, _ => by simp [trackKeys]
  | (key, value) :: rest, pre, hpre => by
    intro k hk
    unfold trackKeys at hk
    have hprene : pre ≠ "" := fun he => hpre (by rw [he])
    rw [if_neg hprene] at hk
    have hdotfk : (pre ++ "." ++ key).data.contains '.' = true := by
      rw [contains_char_iff]
      simp [String.data_append, dot_data]
    have hnefk : (pre ++ "." ++ key).data ≠ [] := by
      simp [String.data_append, dot_data]
    rcases List.mem_cons.mp hk with rfl | hk2
    · exact hdotfk
    · rcases List.mem_append.mp hk2 with hv | hrest
      · exact trackKeysVal_dot value _ hnefk k hv
      · exact trackKeys_dot rest pre hpre k hrest

/-- Nested-value part of the dotted-key invariant. -/
theorem trackKeysVal_dot : ∀ (value : JValue) (fullKey : String),
    fullKey.data ≠ [] → ∀ k ∈ trackKeysVal value fullKey, k.data.contains '.' = true
  | .jobj fs, fullKey, hne => by
    intro k hk
    unfold trackKeysVal at hk
    exact trackKeys_dot fs fullKey hne k hk
  | .jarr (first :: restEls), fullKey, hne => by
    intro k hk
    unfold trackKeysVal at hk
    match first with
    | .jobj fs =>
      exact trackKeys_dot fs (fullKey ++ "[]")
        (by simp [String.data_append, brackets_data]) k hk
    | .jnull | .jbool _ | .jstr _ | .jint _ | .jfloat _ | .jarr _ =>
      simp at hk
  | .jnull, _, _ => by intro k hk; simp [trackKeysVal] at hk
  | .jbool _, _, _ => by intro k hk; simp [trackKeysVal] at hk
  | .jstr _, _, _ => by intro k hk; simp [trackKeysVal] at hk
  | .jint _, _, _ => by intro k hk; simp [trackKeysVal] at hk
  | .jfloat _, _, _ => by intro k hk; simp [trackKeysVal] at hk
  | .jarr [], _, _ => by intro k hk; simp [trackKeysVal] at hk
end

/-- For a record with duplicate-free, nonempty top-level keys, a dot-free
field is counted by `track_fields` exactly once when present and never when
absent (nested emissions are all dotted). -/
theorem count_trackKeys_top (f : String) (hdot : f.data.contains '.' = false) :
    ∀ (fields : List (String × JValue)),
      (fields.map Prod.fst).Nodup → "" ∉ fields.map Prod.fst →
      (trackKeys fields "").count f
        = if f ∈ fields.map Prod.fst then 1 else 0 := by
  intro fields
  induction fields with
  | nil => intro _ _; simp [trackKeys]
  | cons p rest ih =>
    obtain ⟨key, value⟩ := p
    intro hnd hne
    simp only [List.map_cons, List.nodup_cons] at hnd
    simp only [List.map_cons, List.mem_cons] at hne
    push_neg at hne
    have hkeyne : key ≠ "" := fun he => hne.1 he.symm
    have hkeydata : key.data ≠ [] := fun hd => hkeyne (by
      cases key with
      | mk d => simp at hd; rw [hd])
    unfold trackKeys
    rw [if_pos (rfl : ("" : String) = "")]
    rw [List.count_cons, List.count_append]
    have hvz : (trackKeysVal value key).count f = 0 := by
      rw [List.count_eq_zero]
      intro hmem
      have := trackKeysVal_dot value key hkeydata f hmem
      rw [hdot] at this
      exact Bool.false_ne_true this
    rw [hvz, ih hnd.2 hne.2]
    by_cases hfk : f = key
    · subst hfk
      rw [if_neg hnd.1]
      simp
    · have hb1 : (f == key) = false := by
        simp only [beq_eq_false_iff_ne, ne_eq]
        exact hfk
      have hb2 : (key == f) = false := by
        simp only [beq_eq_false_iff_ne, ne_eq]
        exact fun he => hfk he.symm
      simp only [hb1, hb2, Bool.false_eq_true, if_false, Nat.add_zero, Nat.zero_add,
        List.map_cons, List.mem_cons, hfk, false_or]

/-- The presence counter over a record sequence sums the per-record counts. -/
theorem pcount_fold_records (objs : List (List (String × JValue))) :
    ∀ (p : List (String × Nat)) (f : String),
      pcount (objs.foldl (fun p fs => (trackKeys fs "").foldl bumpA p) p) f
        = pcount p f + (objs.map fun fs => (trackKeys fs "").count f).sum := by
  induction objs with
  | nil => intro p f; simp
  | cons fs rest ih =>
    intro p f
    rw [List.foldl_cons, ih, pcount_foldl_bumpA]
    simp [List.sum_cons]
    omega

theorem nodupKeys_fold_records (objs : List (List (String × JValue))) :
    ∀ p, nodupKeys p →
      nodupKeys (objs.foldl (fun p fs => (trackKeys fs "").foldl bumpA p) p) := by
  induction objs with
  | nil => intro p hp; simpa
  | cons fs rest ih =>
    intro p hp
    exact ih _ (nodupKeys_foldl_bumpA _ _ hp)

theorem sum_le_length {α : Type} (l : List α) (cnt : α → Nat)
    (h : ∀ a ∈ l, cnt a ≤ 1) : (l.map cnt).sum ≤ l.length := by
  induction l with
  | nil => simp
  | cons a rest ih =>
    simp only [List.map_cons, List.sum_cons, List.length_cons]
    have h1 := h a (List.mem_cons_self _ _)
    have h2 := ih (fun b hb => h b (List.mem_cons_of_mem _ hb))
    omega

theorem sum_ones_of_all {α : Type} (l : List α) (cnt : α → Nat)
    (h : ∀ a ∈ l, cnt a = 1) : (l.map cnt).sum = l.length := by
  induction l with
  | nil => simp
  | cons a rest ih =>
    simp only [List.map_cons, List.sum_cons, List.length_cons]
    rw [h a (List.mem_cons_self _ _), ih (fun b hb => h b (List.mem_cons_of_mem _ hb))]
    omega

theorem sum_lt_length {α : Type} (l : List α) (cnt : α → Nat)
    (h : ∀ a ∈ l, cnt a ≤ 1) (h0 : ∃ a ∈ l, cnt a = 0) :
    (l.map cnt).sum < l.length := by
  induction l with
  | nil => obtain ⟨a, ha, _⟩ := h0; exact absurd ha (List.not_mem_nil a)
  | cons a rest ih =>
    simp only [List.map_cons, List.sum_cons, List.length_cons]
    obtain ⟨w, hw, hwz⟩ := h0
    rcases List.mem_cons.mp hw with rfl | hwrest
    · have := sum_le_length rest cnt (fun b hb => h b (List.mem_cons_of_mem _ hb))
      omega
    · have h1 := h a (List.mem_cons_self _ _)
      have := ih (fun b hb => h b (List.mem_cons_of_mem _ hb)) ⟨w, hwrest, hwz⟩
      omega

theorem objFields_length (vs : List JValue)
    (h : ∀ v ∈ vs, ∃ fs, v = JValue.jobj fs) :
    (objFields vs).length = vs.length := by
  induction vs with
  | nil => rfl
  | cons v rest ih =>
    obtain ⟨fs, rfl⟩ := h v (List.mem_cons_self _ _)
    simp only [objFields, List.filterMap_cons, List.length_cons]
    have := ih (fun w hw => h w (List.mem_cons_of_mem _ hw))
    simp only [objFields] at this
    simp [this]

/-- Membership in the JSONL `required` list (lines 357-362): an entry of
`all_field_presence` whose count equals `total_rows` and whose key is
dot-free. -/
theorem jsonl_required_mem_iff (lines : List (Option JValue)) (n : Nat)
    (ubt : Bool) (f : String)
    (hne : objFields (decodedRecs lines n 0) ≠ []) :
    f ∈ (generate_jsonl_schema lines n ubt).required
      ↔ ∃ c, (f, c) ∈ (jsonlScan ubt n lines 0 0 [] []).2.1
          ∧ c = (jsonlScan ubt n lines 0 0 [] []).1
          ∧ f.data.contains '.' = false := by
  unfold generate_jsonl_schema
  have hsch := jsonlScan_schemas ubt n lines 0 0 [] []
  rw [List.nil_append] at hsch
  have hnonempty : ((jsonlScan ubt n lines 0 0 [] []).2.2).isEmpty = false := by
    rw [hsch]
    simp only [List.isEmpty_eq_false, ne_eq, List.map_eq_nil_iff]
    exact hne
  simp only [hnonempty, Bool.false_eq_true, if_false]
  rw [List.mem_map]
  constructor
  · rintro ⟨⟨f2, c⟩, hpm, hfe⟩
    rw [List.mem_filter] at hpm
    simp only at hfe
    subst hfe
    have hp := hpm.2
    simp only [Bool.and_eq_true, decide_eq_true_eq, Bool.not_eq_eq_eq_not,
      Bool.not_true] at hp
    exact ⟨c, hpm.1, hp.1, hp.2⟩
  · rintro ⟨c, hmem, hc, hdot⟩
    refine ⟨(f, c), List.mem_filter.mpr ⟨hmem, ?_⟩, rfl⟩
    have hnotmem : '.' ∉ f.data := fun hmem2 => by
      rw [(contains_char_iff f.data '.').mpr hmem2] at hdot
      exact absurd hdot (by decide)
    simp [hc, hnotmem]

/-- Claim C1, amended.  Required-field round trip, corrected per format.
Tabular: a column is `required` iff it is one of the headers and its sampled
classifications are nonempty and all equal to one single non-null data type —
mere presence in every record is *not* enough when the values classify to
more than one non-null type (see the counterexample).  Line-delimited JSON:
when every processed line decodes to an object with duplicate-free, nonempty
top-level keys, a dot-free field present in every processed record is in
`required`, and a field missing from at least one processed record is not. -/
theorem C1_amended (headers : List String) (rows : List (List String))
    (lines : List (Option JValue)) (n : Nat) (ubt : Bool) (h f : String)
    (hnd : headers.Nodup)
    (hdot : f.data.contains '.' = false)
    (hobjs : ∀ v ∈ decodedRecs lines n 0, ∃ fs, v = JValue.jobj fs)
    (hrec : ∀ fs ∈ objFields (decodedRecs lines n 0),
        (fs.map Prod.fst).Nodup ∧ "" ∉ fs.map Prod.fst) :
    (h ∈ (generate_schema (.csv headers rows) n ubt).required
       ↔ h ∈ headers ∧ colClasses headers rows n h ≠ []
           ∧ ∃ t, t ≠ "null" ∧ ∀ d ∈ colClasses headers rows n h, d = t)
    ∧ (objFields (decodedRecs lines n 0) ≠ [] →
         (∀ fs ∈ objFields (decodedRecs lines n 0), f ∈ fs.map Prod.fst) →
         f ∈ (generate_schema (.jsonl lines) n ubt).required)
    ∧ ((∃ fs ∈ objFields (decodedRecs lines n 0), f ∉ fs.map Prod.fst) →
         f ∉ (generate_schema (.jsonl lines) n ubt).required) := by
  have hpres := jsonlScan_presence ubt n lines 0 0 [] []
  have htot := jsonlScan_total ubt n lines 0 0 [] []
  have hlen := objFields_length (decodedRecs lines n 0) hobjs
  have hndk : nodupKeys (jsonlScan ubt n lines 0 0 [] []).2.1 := by
    rw [hpres]
    exact nodupKeys_fold_records _ [] (by simp [nodupKeys])
  refine ⟨?_, ?_, ?_⟩
  · exact csv_required_iff headers rows n h hnd
  · intro hne hall
    show f ∈ (generate_jsonl_schema lines n ubt).required
    rw [jsonl_required_mem_iff lines n ubt f hne]
    have hpc : pcount (jsonlScan ubt n lines 0 0 [] []).2.1 f
        = (objFields (decodedRecs lines n 0)).length := by
      rw [hpres, pcount_fold_records]
      have hz : pcount ([] : List (String × Nat)) f = 0 := rfl
      rw [hz, Nat.zero_add]
      exact sum_ones_of_all _ _ (fun fs hfs => by
        rw [count_trackKeys_top f hdot fs (hrec fs hfs).1 (hrec fs hfs).2,
          if_pos (hall fs hfs)])
    cases hl : lookupA (jsonlScan ubt n lines 0 0 [] []).2.1 f with
    | none =>
      exfalso
      have hz2 : pcount (jsonlScan ubt n lines 0 0 [] []).2.1 f = 0 := by
        simp [pcount, hl]
      rw [hpc] at hz2
      exact hne (List.length_eq_zero.mp hz2)
    | some c =>
      have hpcc : pcount (jsonlScan ubt n lines 0 0 [] []).2.1 f = c := by
        simp [pcount, hl]
      have hcv : c = (objFields (decodedRecs lines n 0)).length := by
        rw [← hpc, hpcc]
      refine ⟨c, (mem_iff_lookupA _ hndk f c).mpr hl, ?_, hdot⟩
      rw [htot, hcv, hlen]
      omega
  · rintro ⟨fs0, hfs0, hfmiss⟩ hin
    have hne : objFields (decodedRecs lines n 0) ≠ [] := fun he => by
      rw [he] at hfs0
      exact absurd hfs0 (List.not_mem_nil _)
    have hin2 : f ∈ (generate_jsonl_schema lines n ubt).required := hin
    rw [jsonl_required_mem_iff lines n ubt f hne] at hin2
    obtain ⟨c, hmem, hc, _⟩ := hin2
    have hl := (mem_iff_lookupA _ hndk f c).mp hmem
    have hpcc : pcount (jsonlScan ubt n lines 0 0 [] []).2.1 f = c := by
      simp [pcount, hl]
    have hsum : pcount (jsonlScan ubt n lines 0 0 [] []).2.1 f
        < (objFields (decodedRecs lines n 0)).length := by
      rw [hpres, pcount_fold_records]
      have hz : pcount ([] : List (String × Nat)) f = 0 := rfl
      rw [hz, Nat.zero_add]
      refine sum_lt_length _ _ (fun fs hfs => ?_) ⟨fs0, hfs0, ?_⟩
      · rw [count_trackKeys_top f hdot fs (hrec fs hfs).1 (hrec fs hfs).2]
        split <;> omega
      · rw [count_trackKeys_top f hdot fs0 (hrec fs0 hfs0).1 (hrec fs0 hfs0).2,
          if_neg hfmiss]
    rw [hpcc] at hsum
    rw [htot, ← hlen] at hc
    omega

/-- Claim C1, witness.  A two-column tabular source and a two-record
line-delimited source instantiating every hypothesis. -/
theorem C1_amended_witness :
    (["a"] : List String).Nodup
    ∧ ("x" : String).data.contains '.' = false
    ∧ (∀ v ∈ decodedRecs
          [some (JValue.jobj [("x", JValue.jnull)]),
           some (JValue.jobj [("x", JValue.jbool true), ("y", JValue.jnull)])] 10 0,
        ∃ fs, v = JValue.jobj fs)
    ∧ (∀ fs ∈ objFields (decodedRecs
          [some (JValue.jobj [("x", JValue.jnull)]),
           some (JValue.jobj [("x", JValue.jbool true), ("y", JValue.jnull)])] 10 0),
        (fs.map Prod.fst).Nodup ∧ "" ∉ fs.map Prod.fst)
    ∧ ((("a" : String) ∈ (generate_schema (.csv ["a"] [["5"], ["z"]]) 10 true).required
         ↔ "a" ∈ ["a"] ∧ colClasses ["a"] [["5"], ["z"]] 10 "a" ≠ []
             ∧ ∃ t, t ≠ "null" ∧ ∀ d ∈ colClasses ["a"] [["5"], ["z"]] 10 "a", d = t)
       ∧ (objFields (decodedRecs
              [some (JValue.jobj [("x", JValue.jnull)]),
               some (JValue.jobj [("x", JValue.jbool true), ("y", JValue.jnull)])] 10 0) ≠ [] →
            (∀ fs ∈ objFields (decodedRecs
              [some (JValue.jobj [("x", JValue.jnull)]),
               some (JValue.jobj [("x", JValue.jbool true), ("y", JValue.jnull)])] 10 0),
              ("x" : String) ∈ fs.map Prod.fst) →
            ("x" : String) ∈ (generate_schema (.jsonl
              [some (JValue.jobj [("x", JValue.jnull)]),
               some (JValue.jobj [("x", JValue.jbool true), ("y", JValue.jnull)])]) 10 true).required)
       ∧ ((∃ fs ∈ objFields (decodedRecs
              [some (JValue.jobj [("x", JValue.jnull)]),
               some (JValue.jobj [("x", JValue.jbool true), ("y", JValue.jnull)])] 10 0),
              ("x" : String) ∉ fs.map Prod.fst) →
            ("x" : String) ∉ (generate_schema (.jsonl
              [some (JValue.jobj [("x", JValue.jnull)]),
               some (JValue.jobj [("x", JValue.jbool true), ("y", JValue.jnull)])]) 10 true).required)) := by
  have hobjs : ∀ v ∈ decodedRecs
      [some (JValue.jobj [("x", JValue.jnull)]),
       some (JValue.jobj [("x", JValue.jbool true), ("y", JValue.jnull)])] 10 0,
      ∃ fs, v = JValue.jobj fs := by
    intro v hv
    have hdec : decodedRecs
        [some (JValue.jobj [("x", JValue.jnull)]),
         some (JValue.jobj [("x", JValue.jbool true), ("y", JValue.jnull)])] 10 0
        = [JValue.jobj [("x", JValue.jnull)],
           JValue.jobj [("x", JValue.jbool true), ("y", JValue.jnull)]] := rfl
    rw [hdec] at hv
    rcases List.mem_cons.mp hv with rfl | hv2
    · exact ⟨_, rfl⟩
    · rcases List.mem_cons.mp hv2 with rfl | hv3
      · exact ⟨_, rfl⟩
      · exact absurd hv3 (List.not_mem_nil _)
  have hrec : ∀ fs ∈ objFields (decodedRecs
      [some (JValue.jobj [("x", JValue.jnull)]),
       some (JValue.jobj [("x", JValue.jbool true), ("y", JValue.jnull)])] 10 0),
      (fs.map Prod.fst).Nodup ∧ "" ∉ fs.map Prod.fst := by
    intro fs hfs
    have hof : objFields (decodedRecs
        [some (JValue.jobj [("x", JValue.jnull)]),
         some (JValue.jobj [("x", JValue.jbool true), ("y", JValue.jnull)])] 10 0)
        = [[("x", JValue.jnull)],
           [("x", JValue.jbool true), ("y", JValue.jnull)]] := rfl
    rw [hof] at hfs
    rcases List.mem_cons.mp hfs with rfl | hfs2
    · exact ⟨by decide, by decide⟩
    · rcases List.mem_cons.mp hfs2 with rfl | hfs3
      · exact ⟨by decide, by decide⟩
      · exact absurd hfs3 (List.not_mem_nil _)
  exact ⟨by decide, by decide, hobjs, hrec,
    C1_amended ["a"] [["5"], ["z"]]
      [some (JValue.jobj [("x", JValue.jnull)]),
       some (JValue.jobj [("x", JValue.jbool true), ("y", JValue.jnull)])]
      10 true "a" "x" (by decide) (by decide) hobjs hrec⟩

end MetadataMgmt
